import Mathlib

/-!
Shallow embedding of `bulk_sync/__init__.py` (django-bulk-sync).

Records are modelled as a primary identifier (`pk`) plus an association
list of attribute values; the storage table is a `List Obj`.  Django field
metadata is modelled by `Field` (name, attname, primary_key, auto_created,
editable, to_python) and a model class by `Model`.  Python dicts keyed by
key tuples are modelled by association lists with Python dict semantics
(insertion order; overwriting keeps the original position; `pop` removes
the unique entry for a key).

Not modelled (external to the algorithm): SQL chunking via `batch_size`
(invisible in the final state), row locking via `select_for_update`
(concurrency is out of scope), and the `.only("pk", *key_fields)` column
narrowing (fetched rows are used only through `pk` and the key fields).
The write semantics of the storage engine itself — a committed row stores
each column's value in the column's canonical form, and an inserted row
without a primary key is assigned a fresh one — are modelled by
`db_settle`, applied when a later call reads back the table a previous
call wrote.
-/

namespace BulkSync

/-- Field values: `None`, integers, or strings. -/
inductive Value where
  | vnone
  | vint (n : Int)
  | vstr (s : String)
deriving DecidableEq, Repr

/-- Rank used to order values of different shapes when sorting by `pk`. -/
def Value.rank : Value → Nat
  | .vnone => 0
  | .vint _ => 1
  | .vstr _ => 2

/-- Boolean total order on values, used to model `.order_by("pk")`. -/
def Value.leb : Value → Value → Bool
  | .vint a, .vint b => a ≤ b
  | .vstr a, .vstr b => decide (a ≤ b)
  | a, b => a.rank ≤ b.rank

/-- A record: primary identifier plus named attribute values
(attributes are keyed the way Python `getattr` resolves them,
i.e. by `attname` for foreign keys). -/
structure Obj where
  pk : Value
  attrs : List (String × Value)
deriving DecidableEq, Repr

/-- Python `getattr(obj, k)` for the modelled attributes. -/
def Obj.getattr (o : Obj) (k : String) : Value :=
  match o.attrs.find? (fun p => p.1 = k) with
  | some p => p.2
  | none => Value.vnone

/-- Django field metadata: `name`, `attname`, the `primary_key` /
`auto_created` / `editable` flags, and the `to_python` canonicalization. -/
structure Field where
  name : String
  attname : String
  primary_key : Bool
  auto_created : Bool
  editable : Bool
  to_python : Value → Value

/-- A model class: its name and its `_meta.fields`. -/
structure Model where
  name : String
  fields : List Field

/-- The key type: a tuple of field values. -/
abbrev Key := List Value

/-- Python dict insertion: overwriting an existing key keeps its original
position; a fresh key is appended at the end. -/
def dictInsert (d : List (Key × Obj)) (k : Key) (v : Obj) : List (Key × Obj) :=
  if d.any (fun p => p.1 = k) then
    d.map (fun p => if p.1 = k then (k, v) else p)
  else
    d ++ [(k, v)]

/-- Build a dict from a list, keyed by `key`, later entries overwriting
earlier ones (`{get_key(obj): obj for obj in objs}`). -/
def dictOfList (key : Obj → Key) (l : List Obj) : List (Key × Obj) :=
  l.foldl (fun d o => dictInsert d (key o) o) []

/-- Dict lookup (`d.get(k)`). -/
def dictFind (d : List (Key × Obj)) (k : Key) : Option Obj :=
  (d.find? (fun p => p.1 = k)).map (fun p => p.2)

/-- Removal part of `d.pop(k, None)`: drop the entry for `k`. -/
def dictErase (d : List (Key × Obj)) (k : Key) : List (Key × Obj) :=
  d.filter (fun p => ¬(p.1 = k))

/-- The values view of a dict (`d.values()`), in insertion order. -/
def dictValues (d : List (Key × Obj)) : List Obj :=
  d.map (fun p => p.2)

/-- The keys of a dict, in insertion order. -/
def dictKeys (d : List (Key × Obj)) : List Key :=
  d.map (fun p => p.1)

/-- The `prep_functions` lookup of `bulk_sync` (lines 92-99): for a key
field name that resolves to a model field, the field's `to_python`;
otherwise the `defaultdict` identity.  (`_meta.get_field` resolves field
names; no claim involves a key-field string that is not a field name.) -/
def prepFun (m : Model) (k : String) : Value → Value :=
  match m.fields.find? (fun f => f.name = k) with
  | some f => f.to_python
  | none => id

/-- The inner `get_key(obj, prep_values)` of `bulk_sync` (lines 101-102):
the tuple of the record's key-field values, canonicalized by
`prep_functions` when `prep_values` is set. -/
def get_key (m : Model) (key_fields : List String) (prep_values : Bool) (o : Obj) : Key :=
  key_fields.map (fun k => if prep_values then prepFun m k (o.getattr k) else o.getattr k)

/-- Default update field list (lines 61-67): every field that is not a
primary key, not auto-created, and editable. -/
def default_update_fields (m : Model) : List String :=
  (m.fields.filter (fun f => ¬f.primary_key ∧ ¬f.auto_created ∧ f.editable)).map (fun f => f.name)

/-- Errors raised by `bulk_sync` before the transaction is opened. -/
inductive SyncError where
  | unableToIdentifyModel
  | fieldDoesNotExist (missing : List String)
deriving DecidableEq, Repr

/-- The `stats` mapping returned by `bulk_sync`. -/
structure SyncStats where
  created : Nat
  updated : Nat
  deleted : Nat
deriving DecidableEq, Repr

/-- Decidable equality of call results, so concrete runs can be checked
by evaluation. -/
instance {ε α : Type} [DecidableEq ε] [DecidableEq α] : DecidableEq (Except ε α) := fun a b =>
  match a, b with
  | Except.ok x, Except.ok y =>
    if h : x = y then Decidable.isTrue (by rw [h])
    else Decidable.isFalse (fun hc => h (Except.ok.inj hc))
  | Except.error x, Except.error y =>
    if h : x = y then Decidable.isTrue (by rw [h])
    else Decidable.isFalse (fun hc => h (Except.error.inj hc))
  | Except.ok _, Except.error _ => Decidable.isFalse (fun hc => Except.noConfusion hc)
  | Except.error _, Except.ok _ => Decidable.isFalse (fun hc => Except.noConfusion hc)

/-- Model resolution (lines 46-59): an explicit `db_class` wins, otherwise
the class detected from `new_models` (`new_models[0].__class__`, or the
queryset's `.model`); with neither, `RuntimeError`. -/
def resolve_db_class (db_class : Option Model) (new_models_class : Option Model) :
    Except SyncError Model :=
  match db_class with
  | some m => Except.ok m
  | none =>
    match new_models_class with
    | some m => Except.ok m
    | none => Except.error SyncError.unableToIdentifyModel

/-- Effective update field resolution (lines 61-78): default fields when
`fields` is absent; when `exclude_fields` is given, fail with
`FieldDoesNotExist` if it names any non-field, else subtract it
(via Python sets, hence the `dedup`). -/
def resolve_fields (m : Model) (fields : Option (List String))
    (exclude_fields : Option (List String)) : Except SyncError (List String) :=
  let flds := match fields with
    | some fs => fs
    | none => default_update_fields m
  match exclude_fields with
  | none => Except.ok flds
  | some ex =>
    let model_fields := m.fields.map (fun f => f.name)
    let missing := ex.filter (fun e => ¬model_fields.contains e)
    if missing.isEmpty then
      Except.ok (flds.dedup.filter (fun f => ¬ex.contains f))
    else
      Except.error (SyncError.fieldDoesNotExist missing)

/-- The in-scope, pk-ordered persisted rows (lines 82-90):
`db_class.objects.all()`, filtered by `filters`, ordered by `pk`. -/
def scoped_objs (filters : Obj → Bool) (db : List Obj) : List Obj :=
  List.insertionSort (fun a b => Value.leb a.pk b.pk = true) (db.filter filters)

/-- State of the classification loop (lines 106-115).  `matched_objs`
records each popped `old_obj` (bound transiently in the source loop), in
step with `existing_objs`, so theorems can name the claimed persisted
records. -/
structure ClassifyState where
  new_objs : List Obj
  existing_objs : List Obj
  matched_objs : List Obj
  obj_dict : List (Key × Obj)

/-- One iteration of the loop over `new_models` (lines 108-115): pop the
canonicalized key from `obj_dict`; on a miss the record is a create, on a
hit the persisted `pk` is copied onto it and it is an update. -/
def classify_step (m : Model) (key_fields : List String)
    (st : ClassifyState) (new_obj : Obj) : ClassifyState :=
  let k := get_key m key_fields true new_obj
  match dictFind st.obj_dict k with
  | none =>
    { st with new_objs := st.new_objs ++ [new_obj], obj_dict := dictErase st.obj_dict k }
  | some old_obj =>
    { st with
      existing_objs := st.existing_objs ++ [{ new_obj with pk := old_obj.pk }],
      matched_objs := st.matched_objs ++ [old_obj],
      obj_dict := dictErase st.obj_dict k }

/-- The full classification (lines 104-115): build `obj_dict` from the
in-scope rows keyed by raw key, then fold the loop over `new_models`. -/
def classify (m : Model) (new_models : List Obj) (key_fields : List String)
    (filters : Obj → Bool) (db : List Obj) : ClassifyState :=
  let objs := scoped_objs filters db
  new_models.foldl (classify_step m key_fields)
    { new_objs := [], existing_objs := [], matched_objs := [],
      obj_dict := dictOfList (get_key m key_fields false) objs }

/-- Storage capability `bulk_create` (line 118): insert the records as
supplied (identifier included). -/
def bulk_create (db : List Obj) (new_objs : List Obj) : List Obj :=
  db ++ new_objs

/-- Column (attribute) name of a field name, as Django resolves update
field names (`company` updates the `company_id` column). -/
def field_column (m : Model) (fld : String) : String :=
  match m.fields.find? (fun f => f.name = fld) with
  | some f => f.attname
  | none => fld

/-- Overwrite the columns `cols` of a stored row with the values of `src`
(one row's effect of `bulk_update`). -/
def set_fields (row : Obj) (cols : List String) (src : Obj) : Obj :=
  { row with attrs := row.attrs.map (fun p => if cols.contains p.1 then (p.1, src.getattr p.1) else p) }

/-- Storage capability `bulk_update` (line 121): each stored row whose
`pk` equals some update-classified record's `pk` has the columns of
`flds` overwritten with that record's values. -/
def bulk_update (m : Model) (db : List Obj) (existing_objs : List Obj) (flds : List String) : List Obj :=
  db.map (fun row =>
    match existing_objs.find? (fun e => e.pk = row.pk) with
    | some e => set_fields row (flds.map (field_column m)) e
    | none => row)

/-- The delete phase (line 125): `objs.filter(pk__in=stale_pks).delete()` —
remove rows that are in scope and whose `pk` is a stale `pk`. -/
def delete_stale (db : List Obj) (filters : Obj → Bool) (stale_pks : List Value) : List Obj :=
  db.filter (fun row => ¬(filters row ∧ stale_pks.contains row.pk))

/-- The transaction body of `bulk_sync` (lines 81-141): classify, then
apply the non-skipped create / update / delete phases in order, and
assemble the stats (a skipped phase reports 0). -/
def bulk_sync_txn (m : Model) (new_models : List Obj) (key_fields : List String)
    (filters : Obj → Bool) (flds : List String)
    (skip_creates skip_updates skip_deletes : Bool) (db : List Obj) :
    SyncStats × List Obj :=
  let st := classify m new_models key_fields filters db
  let db1 := if skip_creates then db else bulk_create db st.new_objs
  let db2 := if skip_updates then db1 else bulk_update m db1 st.existing_objs flds
  let stale_pks := (dictValues st.obj_dict).map (fun o => o.pk)
  let db3 := if skip_deletes then db2 else delete_stale db2 filters stale_pks
  let stats : SyncStats :=
    { created := if skip_creates then 0 else st.new_objs.length,
      updated := if skip_updates then 0 else new_models.length - st.new_objs.length,
      deleted := if skip_deletes then 0 else (dictValues st.obj_dict).length }
  (stats, db3)

/-- `bulk_sync` (lines 11-141): resolve the model and the effective update
fields (failing before the transaction on a configuration error), then run
the transaction body.  `new_models_class` stands for the class detected
from `new_models` (`new_models[0].__class__` when non-empty, or a
queryset's `.model`). -/
def bulk_sync (new_models : List Obj) (key_fields : List String) (filters : Obj → Bool)
    (fields : Option (List String)) (exclude_fields : Option (List String))
    (skip_creates skip_updates skip_deletes : Bool)
    (db_class : Option Model) (new_models_class : Option Model)
    (db : List Obj) : Except SyncError (SyncStats × List Obj) :=
  match resolve_db_class db_class new_models_class with
  | Except.error e => Except.error e
  | Except.ok m =>
    match resolve_fields m fields exclude_fields with
    | Except.error e => Except.error e
    | Except.ok flds =>
      Except.ok (bulk_sync_txn m new_models key_fields filters flds
        skip_creates skip_updates skip_deletes db)

/-- `compare_objs` (lines 195-219): walk the model's fields, skip a field
when its `attname` is in `ignore_fields`, compare the two records'
`to_python`-canonicalized `attname` values, and report each difference
keyed by the field's `name`.  (`_meta.get_fields()` is modelled by the
model's concrete fields.) -/
def compare_objs (m : Model) (obj1 obj2 : Obj) (ignore_fields : List String) :
    List (String × Value × Value) :=
  m.fields.filterMap (fun f =>
    if ignore_fields.contains f.attname then none
    else
      let v1 := f.to_python (obj1.getattr f.attname)
      let v2 := f.to_python (obj2.getattr f.attname)
      if v1 ≠ v2 then some (f.name, v1, v2) else none)

/-- Result of `bulk_compare` (lines 186-192). -/
structure CompareResult where
  added : List Obj
  unchanged : List Obj
  updated : List Obj
  updated_details : List (Obj × List (String × Value × Value))
  removed : List Obj
deriving Repr

/-- State of the `bulk_compare` loop. -/
structure CompareState where
  new_objs : List Obj
  unchanged_objs : List Obj
  updated_objs : List Obj
  change_details : List (Obj × List (String × Value × Value))
  old_obj_dict : List (Key × Obj)

/-- One iteration of the `bulk_compare` loop (lines 171-184): pop the raw
key; a miss is `added`, a hit copies the old `pk` and is split into
`updated` / `unchanged` by `compare_objs`. -/
def compare_step (m : Model) (key_fields : List String) (ignore_fields : List String)
    (st : CompareState) (new_obj : Obj) : CompareState :=
  let k := get_key m key_fields false new_obj
  match dictFind st.old_obj_dict k with
  | none =>
    { st with new_objs := st.new_objs ++ [new_obj], old_obj_dict := dictErase st.old_obj_dict k }
  | some old_obj =>
    let new_obj := { new_obj with pk := old_obj.pk }
    let cmp_result := compare_objs m old_obj new_obj ignore_fields
    if cmp_result.isEmpty then
      { st with
        unchanged_objs := st.unchanged_objs ++ [new_obj],
        old_obj_dict := dictErase st.old_obj_dict k }
    else
      { st with
        updated_objs := st.updated_objs ++ [new_obj],
        change_details := st.change_details ++ [(new_obj, cmp_result)],
        old_obj_dict := dictErase st.old_obj_dict k }

/-- `bulk_compare` (lines 144-192): build the ordered old dict keyed by the
raw key tuple (note: no `to_python` canonicalization on either side), fold
the loop over `new_models`, and return the buckets; `removed` is whatever
remains in the dict, in insertion order. -/
def bulk_compare (m : Model) (old_models new_models : List Obj)
    (key_fields : List String) (ignore_fields : List String) : CompareResult :=
  let st := new_models.foldl (compare_step m key_fields ignore_fields)
    { new_objs := [], unchanged_objs := [], updated_objs := [], change_details := [],
      old_obj_dict := dictOfList (get_key m key_fields false) old_models }
  { added := st.new_objs,
    unchanged := st.unchanged_objs,
    updated := st.updated_objs,
    updated_details := st.change_details,
    removed := dictValues st.old_obj_dict }

/-!
Concrete schema used to evaluate the development on the repository's own
test scenario (`tests/models.py`: `Employee` with `id`, `name`, `age` and
a foreign key `company`).
-/

/-- Parse a non-empty string of decimal digits (kernel-reducible). -/
def digits_to_nat : List Char → Option Nat → Option Nat
  | [], acc => acc
  | c :: cs, acc =>
    if '0' ≤ c ∧ c ≤ '9' then
      match acc with
      | none => digits_to_nat cs (some (c.toNat - 48))
      | some n => digits_to_nat cs (some (n * 10 + (c.toNat - 48)))
    else none

/-- `IntegerField.to_python`: numeric strings canonicalize to integers. -/
def int_to_python : Value → Value
  | .vstr s =>
    match digits_to_nat s.data none with
    | some n => .vint n
    | none => .vstr s
  | v => v

/-- `CharField.to_python`: values canonicalize to strings. -/
def str_to_python : Value → Value
  | .vint n => .vstr (toString n)
  | v => v

/-- The `Employee` model of the repository's test suite: auto primary key
`id`, `CharField` `name`, `IntegerField` `age`, and a foreign key
`company` whose attribute name is `company_id`. -/
def EmployeeM : Model :=
  { name := "Employee",
    fields := [
      { name := "id", attname := "id", primary_key := true, auto_created := true,
        editable := false, to_python := int_to_python },
      { name := "name", attname := "name", primary_key := false, auto_created := false,
        editable := true, to_python := str_to_python },
      { name := "age", attname := "age", primary_key := false, auto_created := false,
        editable := true, to_python := int_to_python },
      { name := "company", attname := "company_id", primary_key := false, auto_created := false,
        editable := true, to_python := int_to_python } ] }

/-- Build an `Employee` record. -/
def mkEmp (pk : Value) (nm : String) (age : Value) (co : Int) : Obj :=
  { pk := pk, attrs := [("name", Value.vstr nm), ("age", age), ("company_id", Value.vint co)] }

/-- The persisted table of the canonical test scenario: Scott/40, Isaac/9
and Zoe/9 under company 1, Bob/25 under company 2. -/
def dbScenario : List Obj :=
  [ mkEmp (.vint 1) "Scott" (.vint 40) 1, mkEmp (.vint 2) "Isaac" (.vint 9) 1,
    mkEmp (.vint 3) "Zoe" (.vint 9) 1, mkEmp (.vint 4) "Bob" (.vint 25) 2 ]

/-- The desired records of the canonical test scenario (scoped to
company 1). -/
def newScenario : List Obj :=
  [ mkEmp .vnone "Scott" (.vint 41) 1, mkEmp .vnone "Isaac" (.vint 9) 1,
    mkEmp .vnone "Newguy" (.vint 10) 1, mkEmp .vnone "Bob" (.vint 50) 1 ]

/-- The company-1 scope filter of the canonical test scenario. -/
def filtCompany1 : Obj → Bool := fun o => o.getattr "company_id" = Value.vint 1

/-!
The storage engine's write semantics (external to the library; Django
delegates them to the database).  A committed row stores each column's
value in the canonical form of the field kept in that column — the engine
coerces written values on INSERT/UPDATE, so a numeric string written into
an integer column is read back as an integer — and a row inserted without
a primary key is assigned a fresh auto-incremented one.  `bulk_sync`'s
transaction body above tracks rows by the values handed to the write
capabilities; `db_settle` maps that to the state a later call reads back
from the engine, so chaining two calls composes the first call's settled
table into the second.
-/

/-- Canonical stored form of a value written to column `col`: the engine
coerces it via the `to_python` of the field stored in that column
(columns are named by `attname`); a column tracking no field stores the
value as written. -/
def settle_column (m : Model) (col : String) (v : Value) : Value :=
  match m.fields.find? (fun f => f.attname = col) with
  | some f => f.to_python v
  | none => v

/-- Canonical stored form of a written row's attribute values. -/
def settle_values (m : Model) (o : Obj) : Obj :=
  { o with attrs := o.attrs.map (fun p => (p.1, settle_column m p.1 p.2)) }

/-- Walk the written rows, canonicalizing values and assigning the next
auto-increment primary key to each key-less row. -/
def db_settle_go (m : Model) : Int → List Obj → List Obj
  | _, [] => []
  | next, o :: rest =>
    if o.pk = Value.vnone then
      { settle_values m o with pk := Value.vint next } :: db_settle_go m (next + 1) rest
    else
      settle_values m o :: db_settle_go m next rest

/-- The table as the engine commits it: canonical column values, fresh
auto-incremented primary keys (above the largest present) for rows
inserted without one. -/
def db_settle (m : Model) (rows : List Obj) : List Obj :=
  db_settle_go m
    ((rows.foldl (fun acc o => match o.pk with | Value.vint i => max acc i | _ => acc) 0) + 1)
    rows

/-!
Lemmas about the Python-dict model.
-/

@[simp] theorem dictKeys_nil : dictKeys [] = [] := rfl

@[simp] theorem dictKeys_cons (p : Key × Obj) (d : List (Key × Obj)) :
    dictKeys (p :: d) = p.1 :: dictKeys d := rfl

@[simp] theorem dictValues_nil : dictValues [] = [] := rfl

@[simp] theorem dictValues_cons (p : Key × Obj) (d : List (Key × Obj)) :
    dictValues (p :: d) = p.2 :: dictValues d := rfl

@[simp] theorem dictKeys_append (d₁ d₂ : List (Key × Obj)) :
    dictKeys (d₁ ++ d₂) = dictKeys d₁ ++ dictKeys d₂ := by
  simp [dictKeys]

theorem mem_dictKeys {d : List (Key × Obj)} {k : Key} :
    k ∈ dictKeys d ↔ ∃ p ∈ d, p.1 = k := by
  simp [dictKeys]

theorem any_key_eq_true {d : List (Key × Obj)} {k : Key} :
    (d.any (fun p => p.1 = k) = true) ↔ k ∈ dictKeys d := by
  simp [List.any_eq_true, mem_dictKeys]

theorem dictKeys_insert (d : List (Key × Obj)) (k : Key) (v : Obj) :
    dictKeys (dictInsert d k v) =
      if k ∈ dictKeys d then dictKeys d else dictKeys d ++ [k] := by
  unfold dictInsert
  by_cases h : k ∈ dictKeys d
  · rw [if_pos (any_key_eq_true.mpr h), if_pos h]
    unfold dictKeys
    rw [List.map_map]
    apply List.map_congr_left
    intro p _
    by_cases hp : p.1 = k
    · simp [hp]
    · simp [hp]
  · rw [if_neg (fun hc => h (any_key_eq_true.mp hc)), if_neg h]
    simp [dictKeys]

theorem dictKeys_insert_nodup {d : List (Key × Obj)} {k : Key} {v : Obj}
    (h : (dictKeys d).Nodup) : (dictKeys (dictInsert d k v)).Nodup := by
  rw [dictKeys_insert]
  by_cases hk : k ∈ dictKeys d
  · rwa [if_pos hk]
  · rw [if_neg hk]
    simp [List.nodup_append, h, hk]

theorem dictOfList_keys_nodup_go (key : Obj → Key) :
    ∀ (l : List Obj) (d : List (Key × Obj)), (dictKeys d).Nodup →
      (dictKeys (l.foldl (fun d o => dictInsert d (key o) o) d)).Nodup := by
  intro l
  induction l with
  | nil => intro d hd; simpa using hd
  | cons o l ih =>
    intro d hd
    exact ih (dictInsert d (key o) o) (dictKeys_insert_nodup hd)

theorem dictOfList_keys_nodup (key : Obj → Key) (l : List Obj) :
    (dictKeys (dictOfList key l)).Nodup :=
  dictOfList_keys_nodup_go key l [] (by simp [dictKeys])

theorem dictFind_eq_none {d : List (Key × Obj)} {k : Key} :
    dictFind d k = none ↔ k ∉ dictKeys d := by
  unfold dictFind
  constructor
  · intro h hk
    obtain ⟨p, hp, hpk⟩ := mem_dictKeys.mp hk
    cases hf : d.find? (fun p => p.1 = k) with
    | none =>
      have := List.find?_eq_none.mp hf p hp
      simp [hpk] at this
    | some q => rw [hf] at h; simp at h
  · intro h
    have : d.find? (fun p => p.1 = k) = none := by
      apply List.find?_eq_none.mpr
      intro p hp hpk
      exact h (mem_dictKeys.mpr ⟨p, hp, by simpa using hpk⟩)
    simp [this]

theorem dictFind_isSome {d : List (Key × Obj)} {k : Key} :
    (dictFind d k).isSome ↔ k ∈ dictKeys d := by
  rcases h : dictFind d k with _ | v
  · simpa using (dictFind_eq_none.mp h)
  · simp only [Option.isSome_some, true_iff]
    by_contra hk
    rw [dictFind_eq_none.mpr hk] at h
    exact Option.noConfusion h

theorem dictFind_mem {d : List (Key × Obj)} {k : Key} {v : Obj}
    (h : dictFind d k = some v) : (k, v) ∈ d := by
  unfold dictFind at h
  cases hf : d.find? (fun p => p.1 = k) with
  | none => rw [hf] at h; simp at h
  | some p =>
    rw [hf] at h
    have hp := List.find?_some hf
    have hmem := List.mem_of_find?_eq_some hf
    simp at h hp
    have : (k, v) = p := by
      cases p
      simp_all
    rwa [this]

theorem dictErase_of_not_mem {d : List (Key × Obj)} {k : Key}
    (h : k ∉ dictKeys d) : dictErase d k = d := by
  unfold dictErase
  apply List.filter_eq_self.mpr
  intro p hp
  simp only [decide_eq_true_eq]
  intro hpk
  exact h (mem_dictKeys.mpr ⟨p, hp, hpk⟩)

theorem dictErase_sublist (d : List (Key × Obj)) (k : Key) :
    (dictErase d k).Sublist d :=
  List.filter_sublist d

theorem dictKeys_erase (d : List (Key × Obj)) (k : Key) :
    dictKeys (dictErase d k) = (dictKeys d).filter (fun x => ¬(x = k)) := by
  unfold dictErase dictKeys
  exact (@List.filter_map (Key × Obj) Key (fun x => decide ¬(x = k)) (fun p => p.1) d).symm

theorem dictKeys_erase_nodup {d : List (Key × Obj)} {k : Key}
    (h : (dictKeys d).Nodup) : (dictKeys (dictErase d k)).Nodup := by
  rw [dictKeys_erase]
  exact h.filter _

theorem perm_cons_erase_of_find {d : List (Key × Obj)} {k : Key} {v : Obj}
    (hnd : (dictKeys d).Nodup) (h : dictFind d k = some v) :
    List.Perm d ((k, v) :: dictErase d k) := by
  induction d with
  | nil => simp [dictFind] at h
  | cons p d ih =>
    rw [dictKeys_cons, List.nodup_cons] at hnd
    by_cases hp : p.1 = k
    · have hv : v = p.2 := by
        unfold dictFind at h
        rw [List.find?_cons_of_pos _ (by simpa using hp)] at h
        simpa using h.symm
      have hknot : k ∉ dictKeys d := hp ▸ hnd.1
      have hpid : (k, v) = p := by
        cases p
        simp only [Prod.mk.injEq]
        exact ⟨hp.symm, hv⟩
      have herase : dictErase (p :: d) k = d := by
        unfold dictErase
        rw [List.filter_cons_of_neg (by simpa using hp)]
        exact dictErase_of_not_mem hknot
      rw [herase, hpid]
    · have hfind : dictFind d k = some v := by
        unfold dictFind at h ⊢
        rwa [List.find?_cons_of_neg _ (by simpa using hp)] at h
      have herase : dictErase (p :: d) k = p :: dictErase d k := by
        unfold dictErase
        rw [List.filter_cons_of_pos (by simpa using hp)]
      rw [herase]
      exact ((ih hnd.2 hfind).cons p).trans (List.Perm.swap _ _ _)

theorem length_erase_of_find {d : List (Key × Obj)} {k : Key} {v : Obj}
    (hnd : (dictKeys d).Nodup) (h : dictFind d k = some v) :
    d.length = (dictErase d k).length + 1 := by
  have := (perm_cons_erase_of_find hnd h).length_eq
  simpa using this

theorem dictFind_erase (d : List (Key × Obj)) (k k' : Key) :
    dictFind (dictErase d k) k' = if k' = k then none else dictFind d k' := by
  by_cases hk : k' = k
  · rw [if_pos hk, hk]
    apply dictFind_eq_none.mpr
    rw [dictKeys_erase]
    simp
  · rw [if_neg hk]
    unfold dictFind dictErase
    induction d with
    | nil => simp
    | cons p d ih =>
      by_cases hp1 : p.1 = k'
      · rw [List.filter_cons_of_pos (by simp [hp1, hk]),
          List.find?_cons_of_pos _ (by simpa using hp1),
          List.find?_cons_of_pos _ (by simpa using hp1)]
      · by_cases hp2 : p.1 = k
        · rw [List.filter_cons_of_neg (by simpa using hp2),
            List.find?_cons_of_neg _ (by simpa using hp1)]
          exact ih
        · rw [List.filter_cons_of_pos (by simpa using hp2),
            List.find?_cons_of_neg _ (by simpa using hp1),
            List.find?_cons_of_neg _ (by simpa using hp1)]
          exact ih

theorem find?_eq_of_mem_of_nodup_map {α β : Type} [DecidableEq β] {f : α → β}
    {l : List α} {a : α} (hnd : (l.map f).Nodup) (ha : a ∈ l) :
    l.find? (fun x => f x = f a) = some a := by
  induction l with
  | nil => simp at ha
  | cons x l ih =>
    rw [List.map_cons, List.nodup_cons] at hnd
    rcases List.mem_cons.mp ha with rfl | ha'
    · exact List.find?_cons_of_pos _ (by simp)
    · have hxa : ¬(f x = f a) := by
        intro hc
        exact hnd.1 (hc ▸ List.mem_map_of_mem f ha')
      rw [List.find?_cons_of_neg _ (by simpa using hxa)]
      exact ih hnd.2 ha'

theorem dictFind_of_mem_of_nodup {d : List (Key × Obj)} {k : Key} {v : Obj}
    (hnd : (dictKeys d).Nodup) (h : (k, v) ∈ d) : dictFind d k = some v := by
  have h0 : (d.map (fun p => p.1)).Nodup := hnd
  have h1 := find?_eq_of_mem_of_nodup_map h0 h
  have h2 : d.find? (fun p => p.1 = k) = some (k, v) := by
    have heq : (fun x : Key × Obj => decide ((fun p : Key × Obj => p.1) x = (fun p : Key × Obj => p.1) (k, v))) =
        (fun p : Key × Obj => decide (p.1 = k)) := by
      funext p
      simp
    rwa [heq] at h1
  unfold dictFind
  rw [h2]
  simp

theorem dictFind_perm {d₁ d₂ : List (Key × Obj)} {k : Key}
    (hperm : List.Perm d₁ d₂) (hnd : (dictKeys d₁).Nodup) :
    dictFind d₁ k = dictFind d₂ k := by
  have hnd₂ : (dictKeys d₂).Nodup := by
    have h0 : (d₁.map (fun p => p.1)).Nodup := hnd
    exact (hperm.map (fun p => p.1)).nodup_iff.mp h0
  cases h : dictFind d₁ k with
  | none =>
    have hk := dictFind_eq_none.mp h
    have : k ∉ dictKeys d₂ := by
      intro hc
      obtain ⟨p, hp, hpk⟩ := mem_dictKeys.mp hc
      exact hk (mem_dictKeys.mpr ⟨p, hperm.mem_iff.mpr hp, hpk⟩)
    rw [dictFind_eq_none.mpr this]
  | some v =>
    have := dictFind_mem h
    rw [dictFind_of_mem_of_nodup hnd₂ (hperm.mem_iff.mp this)]

theorem dictOfList_go_eq (key : Obj → Key) :
    ∀ (l : List Obj) (d : List (Key × Obj)),
      (∀ o ∈ l, key o ∉ dictKeys d) → (l.map key).Nodup →
      l.foldl (fun d o => dictInsert d (key o) o) d = d ++ l.map (fun o => (key o, o)) := by
  intro l
  induction l with
  | nil => intro d _ _; simp
  | cons o l ih =>
    intro d hfresh hnd
    have hko : key o ∉ dictKeys d := hfresh o (List.mem_cons_self o l)
    have hins : dictInsert d (key o) o = d ++ [(key o, o)] := by
      unfold dictInsert
      rw [if_neg (fun hc => hko (any_key_eq_true.mp hc))]
    rw [List.map_cons, List.nodup_cons] at hnd
    have hstep := ih (d ++ [(key o, o)]) ?_ hnd.2
    · simp only [List.foldl_cons, hins, hstep, List.map_cons]
      simp
    · intro o' ho'
      rw [show dictKeys (d ++ [(key o, o)]) = dictKeys d ++ [key o] by simp [dictKeys]]
      simp only [List.mem_append, List.mem_singleton]
      rintro (hc | hc)
      · exact hfresh o' (List.mem_cons_of_mem o ho') hc
      · exact hnd.1 (hc ▸ List.mem_map_of_mem key ho')

theorem dictOfList_eq_map {key : Obj → Key} {l : List Obj}
    (h : (l.map key).Nodup) :
    dictOfList key l = l.map (fun o => (key o, o)) := by
  unfold dictOfList
  simpa using dictOfList_go_eq key l [] (by simp [dictKeys]) h

theorem dictValues_map_pair (key : Obj → Key) (l : List Obj) :
    dictValues (l.map (fun o => (key o, o))) = l := by
  simp only [dictValues, List.map_map]
  exact List.map_id l

theorem dictValues_sublist {d₁ d₂ : List (Key × Obj)} (h : d₁.Sublist d₂) :
    (dictValues d₁).Sublist (dictValues d₂) := by
  unfold dictValues
  exact h.map (fun p => p.2)

/-!
Lemmas about the classification loop of `bulk_sync`.
-/

theorem classify_go_spec (m : Model) (kf : List String) :
    ∀ (l : List Obj) (st : ClassifyState),
      ∃ ns es ms,
        (l.foldl (classify_step m kf) st).new_objs = st.new_objs ++ ns ∧
        (l.foldl (classify_step m kf) st).existing_objs = st.existing_objs ++ es ∧
        (l.foldl (classify_step m kf) st).matched_objs = st.matched_objs ++ ms ∧
        ((l.foldl (classify_step m kf) st).obj_dict).Sublist st.obj_dict ∧
        ns.Sublist l ∧
        ns.length + es.length = l.length ∧
        es.length = ms.length ∧
        (∀ e ∈ es, ∃ n ∈ l, ∃ o, o ∈ ms ∧ e = { n with pk := o.pk }) ∧
        (∀ o ∈ ms, o ∈ dictValues st.obj_dict) := by
  intro l
  induction l with
  | nil =>
    intro st
    exact ⟨[], [], [], by simp, by simp, by simp, by simp [List.Sublist.refl], by simp,
      by simp, by simp, by simp⟩
  | cons n l ih =>
    intro st
    rw [List.foldl_cons]
    rcases hf : dictFind st.obj_dict (get_key m kf true n) with _ | old
    · have hstep : classify_step m kf st n =
          { st with
            new_objs := st.new_objs ++ [n],
            obj_dict := dictErase st.obj_dict (get_key m kf true n) } := by
        simp only [classify_step, hf]
      obtain ⟨ns, es, ms, h1, h2, h3, h4, h5, h6, h7, h8, h9⟩ := ih (classify_step m kf st n)
      refine ⟨n :: ns, es, ms, ?_, ?_, ?_, ?_, ?_, ?_, h7, ?_, ?_⟩
      · rw [h1, hstep]
        simp
      · rw [h2, hstep]
      · rw [h3, hstep]
      · refine List.Sublist.trans ?_ (dictErase_sublist st.obj_dict (get_key m kf true n))
        rw [hstep] at h4 ⊢
        exact h4
      · exact h5.cons₂ n
      · simp only [List.length_cons]
        omega
      · intro e hein
        obtain ⟨n', hn', o, ho, he⟩ := h8 e hein
        exact ⟨n', List.mem_cons_of_mem n hn', o, ho, he⟩
      · intro o ho
        have := h9 o ho
        rw [hstep] at this
        exact (dictValues_sublist (dictErase_sublist st.obj_dict (get_key m kf true n))).mem this
    · have hstep : classify_step m kf st n =
          { st with
            existing_objs := st.existing_objs ++ [{ n with pk := old.pk }],
            matched_objs := st.matched_objs ++ [old],
            obj_dict := dictErase st.obj_dict (get_key m kf true n) } := by
        simp only [classify_step, hf]
      obtain ⟨ns, es, ms, h1, h2, h3, h4, h5, h6, h7, h8, h9⟩ := ih (classify_step m kf st n)
      refine ⟨ns, { n with pk := old.pk } :: es, old :: ms, ?_, ?_, ?_, ?_, ?_, ?_, ?_, ?_, ?_⟩
      · rw [h1, hstep]
      · rw [h2, hstep]
        simp
      · rw [h3, hstep]
        simp
      · refine List.Sublist.trans ?_ (dictErase_sublist st.obj_dict (get_key m kf true n))
        rw [hstep] at h4 ⊢
        exact h4
      · exact h5.cons n
      · simp only [List.length_cons]
        omega
      · simp only [List.length_cons]
        omega
      · intro e hein
        rcases List.mem_cons.mp hein with hhead | htail
        · exact ⟨n, List.mem_cons_self n l, old, List.mem_cons_self old ms, hhead⟩
        · obtain ⟨n', hn', o, ho, he⟩ := h8 e htail
          exact ⟨n', List.mem_cons_of_mem n hn', o, List.mem_cons_of_mem old ho, he⟩
      · intro o ho
        rcases List.mem_cons.mp ho with rfl | htail
        · exact List.mem_map_of_mem (fun p => p.2) (dictFind_mem hf)
        · have := h9 o htail
          rw [hstep] at this
          exact (dictValues_sublist (dictErase_sublist st.obj_dict (get_key m kf true n))).mem this

theorem classify_go_nodup (m : Model) (kf : List String) :
    ∀ (l : List Obj) (st : ClassifyState), (dictKeys st.obj_dict).Nodup →
      (dictKeys (l.foldl (classify_step m kf) st).obj_dict).Nodup ∧
      (l.foldl (classify_step m kf) st).obj_dict.length +
        (l.foldl (classify_step m kf) st).existing_objs.length =
        st.obj_dict.length + st.existing_objs.length ∧
      List.Perm (dictValues st.obj_dict ++ st.matched_objs)
        (dictValues (l.foldl (classify_step m kf) st).obj_dict ++
          (l.foldl (classify_step m kf) st).matched_objs) := by
  intro l
  induction l with
  | nil =>
    intro st hnd
    exact ⟨hnd, rfl, List.Perm.refl _⟩
  | cons n l ih =>
    intro st hnd
    rw [List.foldl_cons]
    rcases hf : dictFind st.obj_dict (get_key m kf true n) with _ | old
    · have herase : dictErase st.obj_dict (get_key m kf true n) = st.obj_dict :=
        dictErase_of_not_mem (dictFind_eq_none.mp hf)
      have hstep : classify_step m kf st n =
          { st with
            new_objs := st.new_objs ++ [n],
            obj_dict := st.obj_dict } := by
        simp only [classify_step, hf, herase]
      obtain ⟨k1, k2, k3⟩ := ih (classify_step m kf st n) (by rw [hstep]; exact hnd)
      refine ⟨k1, ?_, ?_⟩
      · rw [k2, hstep]
      · refine List.Perm.trans ?_ k3
        rw [hstep]
    · have hstep : classify_step m kf st n =
          { st with
            existing_objs := st.existing_objs ++ [{ n with pk := old.pk }],
            matched_objs := st.matched_objs ++ [old],
            obj_dict := dictErase st.obj_dict (get_key m kf true n) } := by
        simp only [classify_step, hf]
      have hnd' : (dictKeys (dictErase st.obj_dict (get_key m kf true n))).Nodup :=
        dictKeys_erase_nodup hnd
      obtain ⟨k1, k2, k3⟩ := ih (classify_step m kf st n) (by rw [hstep]; exact hnd')
      refine ⟨k1, ?_, ?_⟩
      · rw [k2, hstep]
        simp only [List.length_append, List.length_cons, List.length_nil]
        have := length_erase_of_find hnd hf
        omega
      · refine List.Perm.trans ?_ k3
        rw [hstep]
        simp only
        have hv : List.Perm (dictValues st.obj_dict)
            (old :: dictValues (dictErase st.obj_dict (get_key m kf true n))) := by
          have := (perm_cons_erase_of_find hnd hf).map (fun p => p.2)
          simpa [dictValues] using this
        refine List.Perm.trans (hv.append_right st.matched_objs) ?_
        show List.Perm
          (old :: (dictValues (dictErase st.obj_dict (get_key m kf true n)) ++ st.matched_objs))
          (dictValues (dictErase st.obj_dict (get_key m kf true n)) ++ (st.matched_objs ++ [old]))
        rw [← List.append_assoc]
        exact (List.perm_append_singleton old _).symm

theorem classify_go_exact (m : Model) (kf : List String) :
    ∀ (l : List Obj) (st : ClassifyState),
      (l.map (get_key m kf true)).Nodup →
      (l.foldl (classify_step m kf) st).new_objs =
        st.new_objs ++ l.filter (fun n => ¬(dictFind st.obj_dict (get_key m kf true n)).isSome) ∧
      (l.foldl (classify_step m kf) st).existing_objs =
        st.existing_objs ++
          (l.filter (fun n => (dictFind st.obj_dict (get_key m kf true n)).isSome)).map
            (fun n =>
              match dictFind st.obj_dict (get_key m kf true n) with
              | some o => { n with pk := o.pk }
              | none => n) ∧
      (l.foldl (classify_step m kf) st).matched_objs =
        st.matched_objs ++
          (l.filter (fun n => (dictFind st.obj_dict (get_key m kf true n)).isSome)).map
            (fun n =>
              match dictFind st.obj_dict (get_key m kf true n) with
              | some o => o
              | none => n) ∧
      (l.foldl (classify_step m kf) st).obj_dict =
        st.obj_dict.filter (fun p => ¬l.any (fun n => get_key m kf true n = p.1)) := by
  intro l
  induction l with
  | nil =>
    intro st _
    refine ⟨by simp, by simp, by simp, ?_⟩
    rw [List.foldl_nil]
    exact (List.filter_eq_self.mpr (by simp)).symm
  | cons n l ih =>
    intro st hnd
    rw [List.map_cons, List.nodup_cons] at hnd
    have hne : ∀ n' ∈ l, ¬(get_key m kf true n' = get_key m kf true n) := by
      intro n' hn' hc
      exact hnd.1 (hc ▸ List.mem_map_of_mem (get_key m kf true) hn')
    rw [List.foldl_cons]
    rcases hf : dictFind st.obj_dict (get_key m kf true n) with _ | old
    · have herase : dictErase st.obj_dict (get_key m kf true n) = st.obj_dict :=
        dictErase_of_not_mem (dictFind_eq_none.mp hf)
      have hstep : classify_step m kf st n =
          { st with
            new_objs := st.new_objs ++ [n],
            obj_dict := st.obj_dict } := by
        simp only [classify_step, hf, herase]
      rw [hstep]
      obtain ⟨k1, k2, k3, k4⟩ :=
        ih { st with new_objs := st.new_objs ++ [n], obj_dict := st.obj_dict } hnd.2
      dsimp only at k1 k2 k3 k4
      refine ⟨?_, ?_, ?_, ?_⟩
      · rw [k1]
        simp only [List.filter_cons]
        rw [if_pos (by simp [hf])]
        simp
      · rw [k2]
        simp only [List.filter_cons]
        rw [if_neg (by simp [hf])]
      · rw [k3]
        simp only [List.filter_cons]
        rw [if_neg (by simp [hf])]
      · rw [k4]
        apply List.filter_congr
        intro p hp
        have hkp : ¬(get_key m kf true n = p.1) := by
          intro hc
          exact dictFind_eq_none.mp hf (hc ▸ mem_dictKeys.mpr ⟨p, hp, rfl⟩)
        simp [hkp]
    · have hstep : classify_step m kf st n =
          { st with
            existing_objs := st.existing_objs ++ [{ n with pk := old.pk }],
            matched_objs := st.matched_objs ++ [old],
            obj_dict := dictErase st.obj_dict (get_key m kf true n) } := by
        simp only [classify_step, hf]
      rw [hstep]
      obtain ⟨k1, k2, k3, k4⟩ :=
        ih { st with
              existing_objs := st.existing_objs ++ [{ n with pk := old.pk }],
              matched_objs := st.matched_objs ++ [old],
              obj_dict := dictErase st.obj_dict (get_key m kf true n) } hnd.2
      dsimp only at k1 k2 k3 k4
      have hfind_same : ∀ n' ∈ l,
          dictFind (dictErase st.obj_dict (get_key m kf true n)) (get_key m kf true n') =
            dictFind st.obj_dict (get_key m kf true n') := by
        intro n' hn'
        rw [dictFind_erase]
        exact if_neg (hne n' hn')
      have hfilter_same : ∀ (q : Option Obj → Bool),
          l.filter (fun n' => q (dictFind (dictErase st.obj_dict (get_key m kf true n))
              (get_key m kf true n'))) =
            l.filter (fun n' => q (dictFind st.obj_dict (get_key m kf true n'))) := by
        intro q
        apply List.filter_congr
        intro n' hn'
        rw [hfind_same n' hn']
      refine ⟨?_, ?_, ?_, ?_⟩
      · rw [k1]
        simp only [List.filter_cons]
        rw [if_neg (by simp [hf])]
        congr 1
        exact hfilter_same (fun x => ¬x.isSome)
      · rw [k2]
        simp only [List.filter_cons]
        rw [if_pos (by simp [hf])]
        rw [List.map_cons, List.append_assoc]
        congr 1
        simp only [hf, List.singleton_append]
        congr 1
        rw [hfilter_same (fun x => x.isSome)]
        apply List.map_congr_left
        intro n' hn'
        rw [hfind_same n' (List.mem_of_mem_filter hn')]
      · rw [k3]
        simp only [List.filter_cons]
        rw [if_pos (by simp [hf])]
        rw [List.map_cons, List.append_assoc]
        congr 1
        simp only [hf, List.singleton_append]
        congr 1
        rw [hfilter_same (fun x => x.isSome)]
        apply List.map_congr_left
        intro n' hn'
        rw [hfind_same n' (List.mem_of_mem_filter hn')]
      · rw [k4]
        unfold dictErase
        rw [List.filter_filter]
        apply List.filter_congr
        intro p hp
        by_cases hk : get_key m kf true n = p.1
        · simp [hk]
        · have hk' : ¬(p.1 = get_key m kf true n) := fun hc => hk hc.symm
          simp [hk, hk']


/-!
Lemmas about the write phases of `bulk_sync`.
-/

theorem set_fields_pk (row : Obj) (flds : List String) (src : Obj) :
    (set_fields row flds src).pk = row.pk := rfl

theorem set_fields_attrs (row : Obj) (flds : List String) (src : Obj) :
    (set_fields row flds src).attrs =
      row.attrs.map (fun p => if flds.contains p.1 then (p.1, src.getattr p.1) else p) := rfl

theorem getattr_with_pk (n : Obj) (x : Value) (k : String) :
    Obj.getattr { n with pk := x } k = n.getattr k := rfl

theorem getattr_set_fields_of_eq {row : Obj} {flds : List String} {src : Obj} {k : String}
    (h : row.getattr k = src.getattr k) :
    (set_fields row flds src).getattr k = src.getattr k := by
  rcases row with ⟨pkv, attrs⟩
  show Obj.getattr ⟨pkv, attrs.map (fun q =>
    if flds.contains q.1 then (q.1, src.getattr q.1) else q)⟩ k = src.getattr k
  have hpred : ((fun p : String × Value => decide (p.1 = k)) ∘
      (fun q : String × Value => if flds.contains q.1 then (q.1, src.getattr q.1) else q)) =
      (fun q : String × Value => decide (q.1 = k)) := by
    funext q
    show decide ((if flds.contains q.1 then (q.1, src.getattr q.1) else q).1 = k) =
      decide (q.1 = k)
    by_cases hc : flds.contains q.1
    · rw [if_pos hc]
    · rw [if_neg hc]
  show (match (attrs.map (fun q =>
      if flds.contains q.1 then (q.1, src.getattr q.1) else q)).find?
        (fun p => p.1 = k) with
    | some p => p.2
    | none => Value.vnone) = src.getattr k
  rw [List.find?_map, hpred]
  cases hfq : attrs.find? (fun p => p.1 = k) with
  | none =>
    have h' : Value.vnone = src.getattr k := by
      unfold Obj.getattr at h
      rw [hfq] at h
      exact h
    exact h'
  | some q =>
    have hqk : q.1 = k := by simpa using List.find?_some hfq
    have h' : q.2 = src.getattr k := by
      unfold Obj.getattr at h
      rw [hfq] at h
      exact h
    show (if flds.contains q.1 then (q.1, src.getattr q.1) else q).2 = src.getattr k
    by_cases hc : flds.contains q.1
    · rw [if_pos hc, hqk]
    · rw [if_neg hc]
      exact h'

theorem bulk_update_append (m : Model) (db₁ db₂ : List Obj) (es : List Obj) (flds : List String) :
    bulk_update m (db₁ ++ db₂) es flds = bulk_update m db₁ es flds ++ bulk_update m db₂ es flds := by
  unfold bulk_update
  exact List.map_append _ db₁ db₂

theorem bulk_update_eq_self {m : Model} {db : List Obj} {es : List Obj} {flds : List String}
    (h : ∀ row ∈ db, es.find? (fun e => e.pk = row.pk) = none) :
    bulk_update m db es flds = db := by
  unfold bulk_update
  have : ∀ row ∈ db,
      (match es.find? (fun e => e.pk = row.pk) with
        | some e => set_fields row (flds.map (field_column m)) e
        | none => row) = row := by
    intro row hrow
    rw [h row hrow]
  rw [List.map_congr_left this]
  exact List.map_id db

theorem delete_stale_const_true (db : List Obj) (stale_pks : List Value) :
    delete_stale db (fun _ => true) stale_pks =
      db.filter (fun row => ¬stale_pks.contains row.pk) := by
  unfold delete_stale
  apply List.filter_congr
  intro row _
  simp

/-!
Lemmas about the `bulk_compare` loop.
-/

theorem compare_step_dict (m : Model) (kf : List String) (ign : List String)
    (st : CompareState) (n : Obj) :
    (compare_step m kf ign st n).old_obj_dict =
      dictErase st.old_obj_dict (get_key m kf false n) := by
  rcases hf : dictFind st.old_obj_dict (get_key m kf false n) with _ | old
  · simp only [compare_step, hf]
  · simp only [compare_step, hf]
    by_cases hemp : (compare_objs m old { n with pk := old.pk } ign).isEmpty
    · rw [if_pos hemp]
    · rw [if_neg hemp]

theorem compare_go_dict (m : Model) (kf : List String) (ign : List String) :
    ∀ (l : List Obj) (st : CompareState),
      (l.foldl (compare_step m kf ign) st).old_obj_dict =
        st.old_obj_dict.filter (fun p => ¬l.any (fun n => get_key m kf false n = p.1)) := by
  intro l
  induction l with
  | nil =>
    intro st
    rw [List.foldl_nil]
    exact (List.filter_eq_self.mpr (by simp)).symm
  | cons n l ih =>
    intro st
    rw [List.foldl_cons]
    have hdict := ih (compare_step m kf ign st n)
    rw [compare_step_dict] at hdict
    rw [hdict]
    unfold dictErase
    rw [List.filter_filter]
    apply List.filter_congr
    intro p hp
    by_cases hk : get_key m kf false n = p.1
    · simp [hk]
    · have hk' : ¬(p.1 = get_key m kf false n) := fun hc => hk hc.symm
      simp [hk, hk']

theorem compare_go_shape (m : Model) (kf : List String) (ign : List String) :
    ∀ (l : List Obj) (st : CompareState),
      ∃ ns ps us,
        (l.foldl (compare_step m kf ign) st).new_objs = st.new_objs ++ ns ∧
        (l.foldl (compare_step m kf ign) st).updated_objs = st.updated_objs ++ ps ∧
        (l.foldl (compare_step m kf ign) st).unchanged_objs = st.unchanged_objs ++ us ∧
        ns.Sublist l ∧
        (ps.map Obj.attrs).Sublist (l.map Obj.attrs) ∧
        (us.map Obj.attrs).Sublist (l.map Obj.attrs) ∧
        List.Perm (ns.map Obj.attrs ++ (ps.map Obj.attrs ++ us.map Obj.attrs)) (l.map Obj.attrs) := by
  intro l
  induction l with
  | nil =>
    intro st
    exact ⟨[], [], [], by simp, by simp, by simp, by simp, by simp, by simp, by simp⟩
  | cons n l ih =>
    intro st
    rw [List.foldl_cons]
    obtain ⟨ns, ps, us, h1, h2, h3, h4, h5, h6, h7⟩ := ih (compare_step m kf ign st n)
    rcases hf : dictFind st.old_obj_dict (get_key m kf false n) with _ | old
    · have hstep : compare_step m kf ign st n =
          { st with
            new_objs := st.new_objs ++ [n],
            old_obj_dict := dictErase st.old_obj_dict (get_key m kf false n) } := by
        simp only [compare_step, hf]
      rw [hstep] at h1 h2 h3 ⊢
      dsimp only at h1 h2 h3
      refine ⟨n :: ns, ps, us, ?_, h2, h3, h4.cons₂ n, h5.cons _, h6.cons _, ?_⟩
      · rw [h1, List.append_assoc]
        rfl
      · rw [List.map_cons]
        exact (List.Perm.cons n.attrs h7)
    · rcases hemp : (compare_objs m old { n with pk := old.pk } ign).isEmpty with _ | _
      · have hstep : compare_step m kf ign st n =
            { st with
              updated_objs := st.updated_objs ++ [{ n with pk := old.pk }],
              change_details := st.change_details ++
                [({ n with pk := old.pk }, compare_objs m old { n with pk := old.pk } ign)],
              old_obj_dict := dictErase st.old_obj_dict (get_key m kf false n) } := by
          simp only [compare_step, hf]
          rw [if_neg (by rw [hemp]; exact Bool.false_ne_true)]
        rw [hstep] at h1 h2 h3 ⊢
        dsimp only at h1 h2 h3
        refine ⟨ns, { n with pk := old.pk } :: ps, us, h1, ?_, h3, h4.cons n, ?_, h6.cons _, ?_⟩
        · rw [h2, List.append_assoc]
          rfl
        · rw [List.map_cons]
          exact h5.cons₂ n.attrs
        · rw [List.map_cons, List.map_cons]
          refine List.Perm.trans (List.perm_middle) ?_
          exact List.Perm.cons n.attrs h7
      · have hstep : compare_step m kf ign st n =
            { st with
              unchanged_objs := st.unchanged_objs ++ [{ n with pk := old.pk }],
              old_obj_dict := dictErase st.old_obj_dict (get_key m kf false n) } := by
          simp only [compare_step, hf]
          rw [if_pos hemp]
        rw [hstep] at h1 h2 h3 ⊢
        dsimp only at h1 h2 h3
        refine ⟨ns, ps, { n with pk := old.pk } :: us, h1, h2, ?_, h4.cons n, h5.cons _, ?_, ?_⟩
        · rw [h3, List.append_assoc]
          rfl
        · rw [List.map_cons]
          exact h6.cons₂ n.attrs
        · rw [List.map_cons, List.map_cons]
          have hmid : List.Perm
              (ns.map Obj.attrs ++ (ps.map Obj.attrs ++ (n.attrs :: us.map Obj.attrs)))
              (n.attrs :: (ns.map Obj.attrs ++ (ps.map Obj.attrs ++ us.map Obj.attrs))) := by
            rw [← List.append_assoc, ← List.append_assoc]
            exact List.perm_middle
          exact List.Perm.trans hmid (List.Perm.cons n.attrs h7)



/-!
Parallel execution of the `bulk_sync` classification loop and the
`bulk_compare` loop over the same new records.
-/

theorem sync_compare_go (m : Model) (kf : List String) (ign : List String) :
    ∀ (l : List Obj) (stS : ClassifyState) (stC : CompareState),
      (dictKeys stS.obj_dict).Nodup →
      List.Perm stS.obj_dict stC.old_obj_dict →
      (∀ n ∈ l, get_key m kf true n = get_key m kf false n) →
      stS.new_objs = stC.new_objs →
      List.Perm stS.existing_objs (stC.updated_objs ++ stC.unchanged_objs) →
      (l.foldl (classify_step m kf) stS).new_objs =
        (l.foldl (compare_step m kf ign) stC).new_objs ∧
      List.Perm (l.foldl (classify_step m kf) stS).existing_objs
        ((l.foldl (compare_step m kf ign) stC).updated_objs ++
          (l.foldl (compare_step m kf ign) stC).unchanged_objs) ∧
      List.Perm (l.foldl (classify_step m kf) stS).obj_dict
        (l.foldl (compare_step m kf ign) stC).old_obj_dict := by
  intro l
  induction l with
  | nil =>
    intro stS stC _ hperm _ hn he
    exact ⟨hn, he, hperm⟩
  | cons n l ih =>
    intro stS stC hnd hperm hkeys hn he
    have hkey_n : get_key m kf true n = get_key m kf false n := hkeys n (List.mem_cons_self n l)
    have hkeys' : ∀ n' ∈ l, get_key m kf true n' = get_key m kf false n' :=
      fun n' h => hkeys n' (List.mem_cons_of_mem n h)
    have hfind_eq : dictFind stC.old_obj_dict (get_key m kf false n) =
        dictFind stS.obj_dict (get_key m kf true n) := by
      rw [hkey_n]
      exact (dictFind_perm hperm hnd).symm
    have hdict_perm : List.Perm (dictErase stS.obj_dict (get_key m kf true n))
        (dictErase stC.old_obj_dict (get_key m kf false n)) := by
      rw [← hkey_n]
      unfold dictErase
      exact hperm.filter _
    have hdict_nodup : (dictKeys (dictErase stS.obj_dict (get_key m kf true n))).Nodup :=
      dictKeys_erase_nodup hnd
    rw [List.foldl_cons, List.foldl_cons]
    rcases hf : dictFind stS.obj_dict (get_key m kf true n) with _ | old
    · have hfC : dictFind stC.old_obj_dict (get_key m kf false n) = none := by
        rw [hfind_eq, hf]
      have hstepS : classify_step m kf stS n =
          { stS with
            new_objs := stS.new_objs ++ [n],
            obj_dict := dictErase stS.obj_dict (get_key m kf true n) } := by
        simp only [classify_step, hf]
      have hstepC : compare_step m kf ign stC n =
          { stC with
            new_objs := stC.new_objs ++ [n],
            old_obj_dict := dictErase stC.old_obj_dict (get_key m kf false n) } := by
        simp only [compare_step, hfC]
      rw [hstepS, hstepC]
      refine ih _ _ hdict_nodup hdict_perm hkeys' ?_ he
      show stS.new_objs ++ [n] = stC.new_objs ++ [n]
      rw [hn]
    · have hfC : dictFind stC.old_obj_dict (get_key m kf false n) = some old := by
        rw [hfind_eq, hf]
      have hstepS : classify_step m kf stS n =
          { stS with
            existing_objs := stS.existing_objs ++ [{ n with pk := old.pk }],
            matched_objs := stS.matched_objs ++ [old],
            obj_dict := dictErase stS.obj_dict (get_key m kf true n) } := by
        simp only [classify_step, hf]
      by_cases hemp : (compare_objs m old { n with pk := old.pk } ign).isEmpty
      · have hstepC : compare_step m kf ign stC n =
            { stC with
              unchanged_objs := stC.unchanged_objs ++ [{ n with pk := old.pk }],
              old_obj_dict := dictErase stC.old_obj_dict (get_key m kf false n) } := by
          simp only [compare_step, hfC]
          rw [if_pos hemp]
        rw [hstepS, hstepC]
        refine ih _ _ hdict_nodup hdict_perm hkeys' hn ?_
        show List.Perm (stS.existing_objs ++ [{ n with pk := old.pk }])
          (stC.updated_objs ++ (stC.unchanged_objs ++ [{ n with pk := old.pk }]))
        rw [← List.append_assoc]
        exact he.append_right _
      · have hstepC : compare_step m kf ign stC n =
            { stC with
              updated_objs := stC.updated_objs ++ [{ n with pk := old.pk }],
              change_details := stC.change_details ++
                [({ n with pk := old.pk }, compare_objs m old { n with pk := old.pk } ign)],
              old_obj_dict := dictErase stC.old_obj_dict (get_key m kf false n) } := by
          simp only [compare_step, hfC]
          rw [if_neg hemp]
        rw [hstepS, hstepC]
        refine ih _ _ hdict_nodup hdict_perm hkeys' hn ?_
        show List.Perm (stS.existing_objs ++ [{ n with pk := old.pk }])
          ((stC.updated_objs ++ [{ n with pk := old.pk }]) ++ stC.unchanged_objs)
        refine List.Perm.trans (he.append_right _) ?_
        refine List.Perm.trans
          (List.perm_append_singleton _ (stC.updated_objs ++ stC.unchanged_objs)) ?_
        rw [List.append_assoc]
        exact List.perm_middle.symm



/-!
Bridging lemmas between `bulk_sync` and its transaction body.
-/

theorem scoped_objs_perm (filters : Obj → Bool) (db : List Obj) :
    List.Perm (scoped_objs filters db) (db.filter filters) := by
  unfold scoped_objs
  exact List.perm_insertionSort _ _

theorem classify_eq_foldl (m : Model) (nm : List Obj) (kf : List String)
    (filters : Obj → Bool) (db : List Obj) :
    classify m nm kf filters db =
      nm.foldl (classify_step m kf)
        { new_objs := [], existing_objs := [], matched_objs := [],
          obj_dict := dictOfList (get_key m kf false) (scoped_objs filters db) } := rfl

theorem bulk_sync_ok (m : Model) (nm : List Obj) (kf : List String) (filters : Obj → Bool)
    (fields exclude : Option (List String)) (sc su sd : Bool) (nmc : Option Model)
    (db : List Obj) (r : SyncStats × List Obj)
    (h : bulk_sync nm kf filters fields exclude sc su sd (some m) nmc db = Except.ok r) :
    ∃ flds, resolve_fields m fields exclude = Except.ok flds ∧
      r = bulk_sync_txn m nm kf filters flds sc su sd db := by
  have h' : (match resolve_fields m fields exclude with
      | Except.error e => (Except.error e : Except SyncError (SyncStats × List Obj))
      | Except.ok flds => Except.ok (bulk_sync_txn m nm kf filters flds sc su sd db)) =
      Except.ok r := h
  cases hrf : resolve_fields m fields exclude with
  | error e =>
    rw [hrf] at h'
    exact absurd h' (by simp)
  | ok flds =>
    rw [hrf] at h'
    simp only [Except.ok.injEq] at h'
    exact ⟨flds, rfl, h'.symm⟩

theorem bulk_sync_txn_stats (m : Model) (nm : List Obj) (kf : List String)
    (filters : Obj → Bool) (flds : List String) (db : List Obj) :
    (bulk_sync_txn m nm kf filters flds false false false db).1 =
      { created := (classify m nm kf filters db).new_objs.length,
        updated := nm.length - (classify m nm kf filters db).new_objs.length,
        deleted := (dictValues (classify m nm kf filters db).obj_dict).length } := by
  unfold bulk_sync_txn
  simp

theorem bulk_sync_txn_db (m : Model) (nm : List Obj) (kf : List String)
    (filters : Obj → Bool) (flds : List String) (db : List Obj) :
    (bulk_sync_txn m nm kf filters flds false false false db).2 =
      delete_stale
        (bulk_update m (bulk_create db (classify m nm kf filters db).new_objs)
          (classify m nm kf filters db).existing_objs flds)
        filters
        ((dictValues (classify m nm kf filters db).obj_dict).map (fun o => o.pk)) := by
  unfold bulk_sync_txn
  simp



theorem dictInsert_values_cases {d : List (Key × Obj)} {k : Key} {v v' : Obj}
    (h : v' ∈ dictValues (dictInsert d k v)) : v' ∈ dictValues d ∨ v' = v := by
  unfold dictInsert at h
  by_cases hc : d.any (fun p => p.1 = k)
  · rw [if_pos hc] at h
    unfold dictValues at h ⊢
    rw [List.map_map] at h
    obtain ⟨p, hp, hpv⟩ := List.mem_map.mp h
    by_cases hpk : p.1 = k
    · right
      simp only [Function.comp, hpk, if_true] at hpv
      exact hpv.symm
    · left
      simp only [Function.comp, hpk, if_false] at hpv
      exact hpv ▸ List.mem_map_of_mem (fun p => p.2) hp
  · rw [if_neg hc] at h
    unfold dictValues at h ⊢
    rw [List.map_append] at h
    rcases List.mem_append.mp h with h' | h'
    · exact Or.inl h'
    · right
      simpa using h'

theorem dictOfList_values_subset (key : Obj → Key) :
    ∀ (l : List Obj) (d : List (Key × Obj)) (v : Obj),
      v ∈ dictValues (l.foldl (fun d o => dictInsert d (key o) o) d) →
      v ∈ dictValues d ∨ v ∈ l := by
  intro l
  induction l with
  | nil =>
    intro d v h
    exact Or.inl h
  | cons o l ih =>
    intro d v h
    rw [List.foldl_cons] at h
    rcases ih (dictInsert d (key o) o) v h with h' | h'
    · rcases dictInsert_values_cases h' with h'' | h''
      · exact Or.inl h''
      · exact Or.inr (h'' ▸ List.mem_cons_self o l)
    · exact Or.inr (List.mem_cons_of_mem o h')

theorem dictOfList_values_mem {key : Obj → Key} {l : List Obj} {v : Obj}
    (h : v ∈ dictValues (dictOfList key l)) : v ∈ l := by
  rcases dictOfList_values_subset key l [] v h with h' | h'
  · simp [dictValues] at h'
  · exact h'



/-!
Claim theorems.
-/

/-- C1: for every `bulk_sync` call with no skip flags whose in-scope
persisted records have pairwise-distinct raw keys (the spec's uniqueness
precondition on `key_fields`), the computed partition conserves counts:
`created + updated` equals the number of desired records, and `deleted`
equals the number of in-scope persisted records minus `updated`; moreover
every in-scope persisted record ends in exactly one of the
matched-and-updated set and the to-delete set. -/
theorem C1_partition_count_conservation
    (m : Model) (nm : List Obj) (kf : List String) (filters : Obj → Bool)
    (fields exclude : Option (List String)) (nmc : Option Model) (db : List Obj)
    (stats : SyncStats) (db' : List Obj)
    (hkeys : ((db.filter filters).map (get_key m kf false)).Nodup)
    (hrun : bulk_sync nm kf filters fields exclude false false false (some m) nmc db =
      Except.ok (stats, db')) :
    stats.created + stats.updated = nm.length ∧
    stats.updated + stats.deleted = (db.filter filters).length ∧
    stats.deleted = (db.filter filters).length - stats.updated ∧
    ∀ o ∈ db.filter filters,
      (o ∈ (classify m nm kf filters db).matched_objs ↔
        o ∉ dictValues (classify m nm kf filters db).obj_dict) := by
  obtain ⟨flds, hrf, hr⟩ :=
    bulk_sync_ok m nm kf filters fields exclude false false false nmc db _ hrun
  have hstats : stats =
      { created := (classify m nm kf filters db).new_objs.length,
        updated := nm.length - (classify m nm kf filters db).new_objs.length,
        deleted := (dictValues (classify m nm kf filters db).obj_dict).length } := by
    have h1 : stats = (bulk_sync_txn m nm kf filters flds false false false db).1 :=
      congrArg Prod.fst hr
    rw [h1, bulk_sync_txn_stats]
  have hperm_sorted := scoped_objs_perm filters db
  have hkeys_sorted : ((scoped_objs filters db).map (get_key m kf false)).Nodup :=
    ((hperm_sorted.map (get_key m kf false)).nodup_iff).mpr hkeys
  have hdict0 : dictOfList (get_key m kf false) (scoped_objs filters db) =
      (scoped_objs filters db).map (fun o => (get_key m kf false o, o)) :=
    dictOfList_eq_map hkeys_sorted
  obtain ⟨ns, es, ms, h1, h2, h3, h4, h5, h6, h7, h8, h9⟩ :=
    classify_go_spec m kf nm
      { new_objs := [], existing_objs := [], matched_objs := [],
        obj_dict := dictOfList (get_key m kf false) (scoped_objs filters db) }
  obtain ⟨k1, k2, k3⟩ :=
    classify_go_nodup m kf nm
      { new_objs := [], existing_objs := [], matched_objs := [],
        obj_dict := dictOfList (get_key m kf false) (scoped_objs filters db) }
      (dictOfList_keys_nodup _ _)
  dsimp only at h1 h2 h3 k2 k3
  rw [List.nil_append] at h1 h2 h3
  rw [← classify_eq_foldl m nm kf filters db] at h1 h2 h3 k2 k3
  simp only [List.length_nil, Nat.add_zero] at k2
  have hlen_dict0 : (dictOfList (get_key m kf false) (scoped_objs filters db)).length =
      (db.filter filters).length := by
    rw [hdict0, List.length_map]
    exact hperm_sorted.length_eq
  have hA : (classify m nm kf filters db).new_objs.length = ns.length := by
    rw [h1]
  have hB : (classify m nm kf filters db).existing_objs.length = es.length := by
    rw [h2]
  have hD : (classify m nm kf filters db).obj_dict.length +
      (classify m nm kf filters db).existing_objs.length =
      (db.filter filters).length := by
    omega
  have hdel : (dictValues (classify m nm kf filters db).obj_dict).length =
      (classify m nm kf filters db).obj_dict.length :=
    List.length_map _ _
  refine ⟨?_, ?_, ?_, ?_⟩
  · rw [hstats]
    dsimp only
    omega
  · rw [hstats]
    dsimp only
    omega
  · rw [hstats]
    dsimp only
    omega
  · have hvals0 : dictValues (dictOfList (get_key m kf false) (scoped_objs filters db)) =
        scoped_objs filters db := by
      rw [hdict0]
      exact dictValues_map_pair _ _
    have hperm_part : List.Perm (scoped_objs filters db)
        (dictValues (classify m nm kf filters db).obj_dict ++
          (classify m nm kf filters db).matched_objs) := by
      have := k3
      rw [hvals0] at this
      simpa using this
    have hnodup_sorted : (scoped_objs filters db).Nodup :=
      List.Nodup.of_map _ hkeys_sorted
    have hnodup_rhs := hperm_part.nodup_iff.mp hnodup_sorted
    obtain ⟨hnd1, hnd2, hdisj⟩ := List.nodup_append.mp hnodup_rhs
    intro o ho
    have ho' : o ∈ scoped_objs filters db := hperm_sorted.mem_iff.mpr ho
    have hoappend := hperm_part.mem_iff.mp ho'
    constructor
    · intro hmatch hstale
      exact hdisj hstale hmatch
    · intro hstale
      rcases List.mem_append.mp hoappend with hin | hin
      · exact absurd hin hstale
      · exact hin

/-- C9: every create-classified record is one of the caller's desired
records with its primary identifier exactly as supplied (the create list
is a sublist of `new_models`), the insert step passes those records
through unchanged, and only update-classified records have their
identifier overwritten, always with the identifier of a matched persisted
record. -/
theorem C9_create_pk_passthrough
    (m : Model) (nm : List Obj) (kf : List String) (filters : Obj → Bool) (db : List Obj) :
    ((classify m nm kf filters db).new_objs).Sublist nm ∧
    bulk_create db (classify m nm kf filters db).new_objs =
      db ++ (classify m nm kf filters db).new_objs ∧
    ∀ e ∈ (classify m nm kf filters db).existing_objs,
      ∃ n ∈ nm, ∃ o, o ∈ (classify m nm kf filters db).matched_objs ∧
        e = { n with pk := o.pk } := by
  obtain ⟨ns, es, ms, h1, h2, h3, h4, h5, h6, h7, h8, h9⟩ :=
    classify_go_spec m kf nm
      { new_objs := [], existing_objs := [], matched_objs := [],
        obj_dict := dictOfList (get_key m kf false) (scoped_objs filters db) }
  rw [classify_eq_foldl]
  dsimp only at h1 h2 h3
  rw [List.nil_append] at h1 h2 h3
  refine ⟨?_, rfl, ?_⟩
  · rw [h1]
    exact h5
  · intro e he
    rw [h2] at he
    obtain ⟨n, hn, o, ho, heq⟩ := h8 e he
    exact ⟨n, hn, o, by rw [h3]; exact ho, heq⟩

/-- C3: a persisted record outside the scope filter is left entirely
unchanged by `bulk_sync` — it is still present in the resulting table, it
is never matched against a desired record, and it is never classified for
deletion — for any skip-flag combination, provided table identifiers are
unique (a database invariant). -/
theorem C3_scope_isolation
    (m : Model) (nm : List Obj) (kf : List String) (filters : Obj → Bool)
    (fields exclude : Option (List String)) (sc su sd : Bool) (nmc : Option Model)
    (db : List Obj) (stats : SyncStats) (db' : List Obj) (r : Obj)
    (hpk : (db.map Obj.pk).Nodup)
    (hr : r ∈ db) (hout : filters r = false)
    (hrun : bulk_sync nm kf filters fields exclude sc su sd (some m) nmc db =
      Except.ok (stats, db')) :
    r ∈ db' ∧
    r ∉ (classify m nm kf filters db).matched_objs ∧
    r ∉ dictValues (classify m nm kf filters db).obj_dict := by
  obtain ⟨flds, hrf, hres⟩ :=
    bulk_sync_ok m nm kf filters fields exclude sc su sd nmc db _ hrun
  obtain ⟨ns, es, ms, h1, h2, h3, h4, h5, h6, h7, h8, h9⟩ :=
    classify_go_spec m kf nm
      { new_objs := [], existing_objs := [], matched_objs := [],
        obj_dict := dictOfList (get_key m kf false) (scoped_objs filters db) }
  have hscoped_sub : ∀ o, o ∈ scoped_objs filters db → o ∈ db.filter filters := by
    intro o ho
    exact (scoped_objs_perm filters db).mem_iff.mp ho
  have hnot_scoped : r ∉ db.filter filters := by
    intro hc
    have := (List.mem_filter.mp hc).2
    rw [hout] at this
    exact Bool.false_ne_true this
  have hms_scoped : ∀ o ∈ ms, o ∈ db.filter filters := by
    intro o ho
    have hvd := h9 o ho
    dsimp only at hvd
    exact hscoped_sub o (dictOfList_values_mem hvd)
  have hnot_matched : r ∉ (classify m nm kf filters db).matched_objs := by
    rw [classify_eq_foldl, h3]
    intro hc
    rcases List.mem_append.mp hc with hc' | hc'
    · simp at hc'
    · exact hnot_scoped (hms_scoped r hc')
  have hstale_sub : ∀ o, o ∈ dictValues (classify m nm kf filters db).obj_dict →
      o ∈ db.filter filters := by
    intro o ho
    rw [classify_eq_foldl] at ho
    have hsub := dictValues_sublist h4
    have := hsub.mem ho
    dsimp only at this
    exact hscoped_sub o (dictOfList_values_mem this)
  have hnot_stale : r ∉ dictValues (classify m nm kf filters db).obj_dict := by
    intro hc
    exact hnot_scoped (hstale_sub r hc)
  refine ⟨?_, hnot_matched, hnot_stale⟩
  have hdb' : db' = (bulk_sync_txn m nm kf filters flds sc su sd db).2 :=
    congrArg Prod.snd hres
  rw [hdb']
  unfold bulk_sync_txn
  dsimp only
  have hepk : ∀ e ∈ (classify m nm kf filters db).existing_objs, ¬(e.pk = r.pk) := by
    intro e he hc
    rw [classify_eq_foldl, h2] at he
    rw [List.nil_append] at he
    obtain ⟨n, hn, o, ho, heq⟩ := h8 e he
    have ho_scoped : o ∈ db.filter filters := hms_scoped o ho
    have ho_db : o ∈ db := (List.mem_filter.mp ho_scoped).1
    have hor : o = r := by
      have hinj := List.inj_on_of_nodup_map hpk
      refine hinj ho_db hr ?_
      rw [← hc, heq]
    rw [hor] at ho_scoped
    exact hnot_scoped ho_scoped
  have hr1 : r ∈ (if sc then db else bulk_create db (classify m nm kf filters db).new_objs) := by
    by_cases hsc : sc
    · rw [if_pos hsc]
      exact hr
    · rw [if_neg hsc]
      exact List.mem_append_left _ hr
  have hr2 : r ∈ (if su then (if sc then db else bulk_create db (classify m nm kf filters db).new_objs)
      else bulk_update m (if sc then db else bulk_create db (classify m nm kf filters db).new_objs)
        (classify m nm kf filters db).existing_objs flds) := by
    by_cases hsu : su
    · rw [if_pos hsu]
      exact hr1
    · rw [if_neg hsu]
      unfold bulk_update
      have hfind : (classify m nm kf filters db).existing_objs.find?
          (fun e => e.pk = r.pk) = none := by
        apply List.find?_eq_none.mpr
        intro e he
        simpa using hepk e he
      have : (match (classify m nm kf filters db).existing_objs.find?
            (fun e => e.pk = r.pk) with
          | some e => set_fields r (flds.map (field_column m)) e
          | none => r) = r := by
        rw [hfind]
      rw [← this]
      exact List.mem_map_of_mem _ hr1
  by_cases hsd : sd
  · rw [if_pos hsd]
    exact hr2
  · rw [if_neg hsd]
    unfold delete_stale
    rw [List.mem_filter]
    refine ⟨hr2, ?_⟩
    simp [hout]



theorem bulk_compare_eq_foldl (m : Model) (old nm : List Obj) (kf ign : List String) :
    bulk_compare m old nm kf ign =
      { added := (nm.foldl (compare_step m kf ign)
          { new_objs := [], unchanged_objs := [], updated_objs := [], change_details := [],
            old_obj_dict := dictOfList (get_key m kf false) old }).new_objs,
        unchanged := (nm.foldl (compare_step m kf ign)
          { new_objs := [], unchanged_objs := [], updated_objs := [], change_details := [],
            old_obj_dict := dictOfList (get_key m kf false) old }).unchanged_objs,
        updated := (nm.foldl (compare_step m kf ign)
          { new_objs := [], unchanged_objs := [], updated_objs := [], change_details := [],
            old_obj_dict := dictOfList (get_key m kf false) old }).updated_objs,
        updated_details := (nm.foldl (compare_step m kf ign)
          { new_objs := [], unchanged_objs := [], updated_objs := [], change_details := [],
            old_obj_dict := dictOfList (get_key m kf false) old }).change_details,
        removed := dictValues (nm.foldl (compare_step m kf ign)
          { new_objs := [], unchanged_objs := [], updated_objs := [], change_details := [],
            old_obj_dict := dictOfList (get_key m kf false) old }).old_obj_dict } := rfl

/-- C2 (amended): when every desired record's key-field values are already
canonical (fixed points of the fields' `to_python`, as is the case for
values in the storage representation) and the old records have pairwise
distinct keys, the partition computed by `bulk_compare` agrees with the
partition computed internally by `bulk_sync` over the same records: the
`added` bucket equals the create list, `updated ++ unchanged` is a
permutation of the update list, and `removed` is a permutation of the
delete list — hence all sizes and key memberships coincide.  (Without the
canonicality hypothesis the two partitions genuinely differ: `bulk_sync`
canonicalizes desired-record keys via `to_python` while `bulk_compare`
compares raw keys, see the counterexample.) -/
theorem C2_sync_compare_agreement
    (m : Model) (old_models new_models : List Obj) (kf ign : List String)
    (hcanon : ∀ n ∈ new_models, get_key m kf true n = get_key m kf false n)
    (holdkeys : (old_models.map (get_key m kf false)).Nodup) :
    (bulk_compare m old_models new_models kf ign).added =
      (classify m new_models kf (fun _ => true) old_models).new_objs ∧
    List.Perm
      ((bulk_compare m old_models new_models kf ign).updated ++
        (bulk_compare m old_models new_models kf ign).unchanged)
      (classify m new_models kf (fun _ => true) old_models).existing_objs ∧
    List.Perm (bulk_compare m old_models new_models kf ign).removed
      (dictValues (classify m new_models kf (fun _ => true) old_models).obj_dict) ∧
    (bulk_compare m old_models new_models kf ign).added.length =
      (classify m new_models kf (fun _ => true) old_models).new_objs.length ∧
    (bulk_compare m old_models new_models kf ign).updated.length +
      (bulk_compare m old_models new_models kf ign).unchanged.length =
      (classify m new_models kf (fun _ => true) old_models).existing_objs.length ∧
    (bulk_compare m old_models new_models kf ign).removed.length =
      (dictValues (classify m new_models kf (fun _ => true) old_models).obj_dict).length := by
  have hfilter_all : old_models.filter (fun _ => true) = old_models :=
    List.filter_eq_self.mpr (fun _ _ => rfl)
  have hperm_sorted : List.Perm (scoped_objs (fun _ => true) old_models) old_models := by
    have := scoped_objs_perm (fun _ => true) old_models
    rwa [hfilter_all] at this
  have hkeys_sorted : ((scoped_objs (fun _ => true) old_models).map (get_key m kf false)).Nodup :=
    ((hperm_sorted.map (get_key m kf false)).nodup_iff).mpr holdkeys
  have hdictS : dictOfList (get_key m kf false) (scoped_objs (fun _ => true) old_models) =
      (scoped_objs (fun _ => true) old_models).map (fun o => (get_key m kf false o, o)) :=
    dictOfList_eq_map hkeys_sorted
  have hdictC : dictOfList (get_key m kf false) old_models =
      old_models.map (fun o => (get_key m kf false o, o)) :=
    dictOfList_eq_map holdkeys
  have hperm_dict : List.Perm
      (dictOfList (get_key m kf false) (scoped_objs (fun _ => true) old_models))
      (dictOfList (get_key m kf false) old_models) := by
    rw [hdictS, hdictC]
    exact hperm_sorted.map _
  obtain ⟨hadded, hexist, hdict⟩ :=
    sync_compare_go m kf ign new_models
      { new_objs := [], existing_objs := [], matched_objs := [],
        obj_dict := dictOfList (get_key m kf false) (scoped_objs (fun _ => true) old_models) }
      { new_objs := [], unchanged_objs := [], updated_objs := [], change_details := [],
        old_obj_dict := dictOfList (get_key m kf false) old_models }
      (dictOfList_keys_nodup _ _) hperm_dict hcanon rfl (by simp)
  have hvals : List.Perm
      (dictValues (new_models.foldl (classify_step m kf)
        { new_objs := [], existing_objs := [], matched_objs := [],
          obj_dict := dictOfList (get_key m kf false)
            (scoped_objs (fun _ => true) old_models) }).obj_dict)
      (dictValues (new_models.foldl (compare_step m kf ign)
        { new_objs := [], unchanged_objs := [], updated_objs := [], change_details := [],
          old_obj_dict := dictOfList (get_key m kf false) old_models }).old_obj_dict) := by
    unfold dictValues
    exact hdict.map _
  rw [classify_eq_foldl, bulk_compare_eq_foldl]
  dsimp only
  refine ⟨hadded.symm, hexist.symm, hvals.symm, ?_, ?_, ?_⟩
  · rw [hadded]
  · have := hexist.length_eq
    rw [List.length_append] at this
    omega
  · exact hvals.symm.length_eq

/-- C2 counterexample: with an old record whose `age` is the integer 40
and a desired record whose `age` is the raw string "40" (canonically equal
keys), `bulk_sync` classifies the pair as one update and nothing else,
while `bulk_compare` reports one added and one removed record — the two
partitions differ in every bucket size, so the claim as stated (agreement
for every pair of record collections) is false. -/
theorem C2_counterexample :
    (bulk_compare EmployeeM [mkEmp (.vint 1) "Scott" (.vint 40) 1]
      [mkEmp .vnone "Scott" (.vstr "40") 1] ["name", "age"] []).added.length = 1 ∧
    (classify EmployeeM [mkEmp .vnone "Scott" (.vstr "40") 1] ["name", "age"] (fun _ => true)
      [mkEmp (.vint 1) "Scott" (.vint 40) 1]).new_objs.length = 0 ∧
    (bulk_compare EmployeeM [mkEmp (.vint 1) "Scott" (.vint 40) 1]
      [mkEmp .vnone "Scott" (.vstr "40") 1] ["name", "age"] []).removed.length = 1 ∧
    (dictValues (classify EmployeeM [mkEmp .vnone "Scott" (.vstr "40") 1] ["name", "age"]
      (fun _ => true) [mkEmp (.vint 1) "Scott" (.vint 40) 1]).obj_dict).length = 0 := by
  decide



/-- C8: the `added`, `updated` and `unchanged` buckets of `bulk_compare`
together are exactly the new records (as a multiset of record contents,
each bucket preserving the new-record iteration order; matched records
carry the old record's identifier, which is the loop's in-place `pk`
assignment, so contents are compared through `Obj.attrs`), and `removed`
is exactly the list of old records whose key matches no new record, in the
old records' original relative order — under the spec's precondition that
old-record keys are pairwise distinct. -/
theorem C8_compare_partition
    (m : Model) (old_models new_models : List Obj) (kf ign : List String)
    (holdkeys : (old_models.map (get_key m kf false)).Nodup) :
    ((bulk_compare m old_models new_models kf ign).added).Sublist new_models ∧
    (((bulk_compare m old_models new_models kf ign).updated).map Obj.attrs).Sublist
      (new_models.map Obj.attrs) ∧
    (((bulk_compare m old_models new_models kf ign).unchanged).map Obj.attrs).Sublist
      (new_models.map Obj.attrs) ∧
    List.Perm
      (((bulk_compare m old_models new_models kf ign).added).map Obj.attrs ++
        (((bulk_compare m old_models new_models kf ign).updated).map Obj.attrs ++
          ((bulk_compare m old_models new_models kf ign).unchanged).map Obj.attrs))
      (new_models.map Obj.attrs) ∧
    (bulk_compare m old_models new_models kf ign).removed =
      old_models.filter (fun o =>
        ¬new_models.any (fun n => get_key m kf false n = get_key m kf false o)) := by
  obtain ⟨ns, ps, us, h1, h2, h3, h4, h5, h6, h7⟩ :=
    compare_go_shape m kf ign new_models
      { new_objs := [], unchanged_objs := [], updated_objs := [], change_details := [],
        old_obj_dict := dictOfList (get_key m kf false) old_models }
  have hdictfinal :=
    compare_go_dict m kf ign new_models
      { new_objs := [], unchanged_objs := [], updated_objs := [], change_details := [],
        old_obj_dict := dictOfList (get_key m kf false) old_models }
  rw [bulk_compare_eq_foldl]
  dsimp only at h1 h2 h3 hdictfinal ⊢
  rw [List.nil_append] at h1 h2 h3
  refine ⟨?_, ?_, ?_, ?_, ?_⟩
  · rw [h1]
    exact h4
  · rw [h2]
    exact h5
  · rw [h3]
    exact h6
  · rw [h1, h2, h3]
    exact h7
  · rw [hdictfinal, dictOfList_eq_map holdkeys]
    rw [@List.filter_map Obj (Key × Obj)
      (fun p => decide ¬(new_models.any (fun n => get_key m kf false n = p.1)))
      (fun o => (get_key m kf false o, o)) old_models]
    unfold dictValues
    rw [List.map_map]
    have : ((fun p : Key × Obj => p.2) ∘ (fun o => (get_key m kf false o, o))) = id := rfl
    rw [this, List.map_id]
    exact List.filter_congr (fun o _ => rfl)

/-- C4: in `bulk_sync`, a desired record matches an in-scope persisted
record exactly when the persisted record's raw key equals the desired
record's canonicalized key; whenever the persisted record's key values are
canonical (fixed points of `to_python`, as storage-loaded values are),
this holds if and only if the two canonicalized keys are equal.  In
particular, a desired record whose `age` is the raw string "40" matches a
persisted record whose `age` is the integer 40 and is classified as an
update of it — not as a create plus a delete. -/
theorem C4_canonicalization_matching :
    (∀ (m : Model) (kf : List String) (old new : Obj),
      (∀ k ∈ kf, prepFun m k (old.getattr k) = old.getattr k) →
      (get_key m kf false old = get_key m kf true new ↔
        get_key m kf true old = get_key m kf true new)) ∧
    (bulk_sync [mkEmp .vnone "Scott" (.vstr "40") 2] ["name", "age"] (fun _ => true)
        none none false false false (some EmployeeM) none
        [mkEmp (.vint 1) "Scott" (.vint 40) 1]).toOption.map Prod.fst =
      some { created := 0, updated := 1, deleted := 0 } := by
  constructor
  · intro m kf old new hcanon
    have hkey : get_key m kf true old = get_key m kf false old := by
      unfold get_key
      apply List.map_congr_left
      intro k hk
      simp only [if_true]
      exact hcanon k hk
    rw [hkey]
  · decide

/-- C6: a `bulk_sync` call whose `exclude_fields` names a field absent
from the target schema fails with `FieldDoesNotExist` carrying the
missing names; the error is raised during field resolution, before the
transaction body runs, so no storage state is produced or mutated. -/
theorem C6_exclude_fields_validation
    (m : Model) (nm : List Obj) (kf : List String) (filters : Obj → Bool)
    (fields : Option (List String)) (ex : List String) (sc su sd : Bool)
    (nmc : Option Model) (db : List Obj) (bad : String)
    (hbad : bad ∈ ex) (hnot : bad ∉ m.fields.map (fun f => f.name)) :
    ex.filter (fun e => ¬(m.fields.map (fun f => f.name)).contains e) ≠ [] ∧
    bulk_sync nm kf filters fields (some ex) sc su sd (some m) nmc db =
      Except.error (SyncError.fieldDoesNotExist
        (ex.filter (fun e => ¬(m.fields.map (fun f => f.name)).contains e))) := by
  have hbadf : bad ∈ ex.filter (fun e => ¬(m.fields.map (fun f => f.name)).contains e) := by
    rw [List.mem_filter]
    refine ⟨hbad, ?_⟩
    simp only [decide_eq_true_eq]
    intro hc
    exact hnot (by simpa using hc)
  have hne : ex.filter (fun e => ¬(m.fields.map (fun f => f.name)).contains e) ≠ [] := by
    intro hc
    rw [hc] at hbadf
    simp at hbadf
  refine ⟨hne, ?_⟩
  show (match resolve_fields m fields (some ex) with
    | Except.error e => (Except.error e : Except SyncError (SyncStats × List Obj))
    | Except.ok flds => Except.ok (bulk_sync_txn m nm kf filters flds sc su sd db)) =
    Except.error (SyncError.fieldDoesNotExist
      (ex.filter (fun e => ¬(m.fields.map (fun f => f.name)).contains e)))
  have hempty : (ex.filter (fun e => ¬(m.fields.map (fun f => f.name)).contains e)).isEmpty = false := by
    cases hc : ex.filter (fun e => ¬(m.fields.map (fun f => f.name)).contains e) with
    | nil => exact absurd hc hne
    | cons a l => rfl
  have hrf : resolve_fields m fields (some ex) =
      Except.error (SyncError.fieldDoesNotExist
        (ex.filter (fun e => ¬(m.fields.map (fun f => f.name)).contains e))) := by
    unfold resolve_fields
    dsimp only
    rw [hempty, if_neg Bool.false_ne_true]
  rw [hrf]

/-- C7 (amended): `bulk_sync` performs no validation of `key_fields`; a
call with an empty `key_fields` list does not fail with a configuration
error but proceeds normally — every record then has the same empty key, so
at most one in-scope persisted record is matched and the remaining desired
records are creates.  (Given a resolvable model class and no
`exclude_fields`, the call always returns a result.) -/
theorem C7_empty_key_fields_not_rejected
    (m : Model) (nm : List Obj) (filters : Obj → Bool) (fields : Option (List String))
    (sc su sd : Bool) (nmc : Option Model) (db : List Obj) :
    bulk_sync nm [] filters fields none sc su sd (some m) nmc db =
      Except.ok (bulk_sync_txn m nm [] filters
        (match fields with
          | some fs => fs
          | none => default_update_fields m) sc su sd db) := by
  show (match resolve_fields m fields none with
    | Except.error e => (Except.error e : Except SyncError (SyncStats × List Obj))
    | Except.ok flds => Except.ok (bulk_sync_txn m nm [] filters flds sc su sd db)) = _
  rw [show resolve_fields m fields none = Except.ok (match fields with
    | some fs => fs
    | none => default_update_fields m) from rfl]

/-- C7 counterexample: the claim says an empty `key_fields` list is a
configuration error detected before any storage mutation; in fact the
call completes successfully — here it matches the single persisted record
under the empty key, updates it, and reports `updated = 1` with no error. -/
theorem C7_counterexample :
    bulk_sync [mkEmp .vnone "Isaac" (.vint 9) 1] [] (fun _ => true) none none
        false false false (some EmployeeM) none
        [mkEmp (.vint 1) "Scott" (.vint 40) 1] =
      Except.ok ({ created := 0, updated := 1, deleted := 0 },
        [mkEmp (.vint 1) "Isaac" (.vint 9) 1]) := by
  decide



/-- C10: `compare_objs` skips a field exactly when the field's attribute
name (`attname`, e.g. `company_id` for a foreign key) appears in
`ignore_fields`, while every reported difference is keyed by the field's
`name` (e.g. `company`); consequently passing a foreign key's bare
relation name in `ignore_fields` does not suppress that field's diff. -/
theorem C10_compare_objs_attname_skip_name_report
    (m : Model) (o1 o2 : Obj) (ign : List String) (f : Field)
    (hf : f ∈ m.fields) (hnames : (m.fields.map (fun g => g.name)).Nodup) :
    (f.attname ∈ ign → f.name ∉ (compare_objs m o1 o2 ign).map (fun d => d.1)) ∧
    (f.attname ∉ ign →
      f.to_python (o1.getattr f.attname) ≠ f.to_python (o2.getattr f.attname) →
      f.name ∈ (compare_objs m o1 o2 ign).map (fun d => d.1)) := by
  constructor
  · intro hin hc
    obtain ⟨d, hd, hdname⟩ := List.mem_map.mp hc
    obtain ⟨g, hg, hgd⟩ := List.mem_filterMap.mp hd
    by_cases hgi : ign.contains g.attname
    · rw [if_pos hgi] at hgd
      exact Option.noConfusion hgd
    · rw [if_neg hgi] at hgd
      by_cases hne : g.to_python (o1.getattr g.attname) ≠ g.to_python (o2.getattr g.attname)
      · rw [if_pos hne] at hgd
        have hdg : d.1 = g.name := by
          have hd' := Option.some.inj hgd
          rw [← hd']
        have hgf : g = f := by
          have hinj := List.inj_on_of_nodup_map hnames
          exact hinj hg hf (by rw [← hdg, hdname])
        rw [hgf] at hgi
        exact hgi (by simpa using hin)
      · rw [if_neg hne] at hgd
        exact Option.noConfusion hgd
  · intro hnin hne
    have hsome : (if ign.contains f.attname then none
        else
          if f.to_python (o1.getattr f.attname) ≠ f.to_python (o2.getattr f.attname) then
            some (f.name, f.to_python (o1.getattr f.attname), f.to_python (o2.getattr f.attname))
          else none) =
        some (f.name, f.to_python (o1.getattr f.attname), f.to_python (o2.getattr f.attname)) := by
      rw [if_neg (by simpa using hnin), if_pos hne]
    refine List.mem_map.mpr ⟨(f.name, f.to_python (o1.getattr f.attname),
      f.to_python (o2.getattr f.attname)), ?_, rfl⟩
    exact List.mem_filterMap.mpr ⟨f, hf, hsome⟩

/-- Witness for C10 on the repository's foreign-key scenario: two
employees differing only in `company_id`, with `ignore_fields`
containing the bare relation name `company`, still report the `company`
diff (skipping matches on `company_id`, not `company`). -/
theorem C10_witness :
    (mkEmp (.vint 1) "Scott" (.vint 40) 1) ∈ [mkEmp (.vint 1) "Scott" (.vint 40) 1] ∧
    "company" ∈ (compare_objs EmployeeM (mkEmp (.vint 1) "Scott" (.vint 40) 1)
      (mkEmp (.vint 1) "Scott" (.vint 40) 2) ["company"]).map (fun d => d.1) := by
  refine ⟨by decide, ?_⟩
  have h := (C10_compare_objs_attname_skip_name_report EmployeeM
    (mkEmp (.vint 1) "Scott" (.vint 40) 1) (mkEmp (.vint 1) "Scott" (.vint 40) 2) ["company"]
    { name := "company", attname := "company_id", primary_key := false, auto_created := false,
      editable := true, to_python := int_to_python }
    (by simp [EmployeeM]) (by decide)).2
  exact h (by decide) (by decide)

/-- Witness for C1 on the canonical test scenario (Scott/Isaac updated,
Newguy and a company-1 Bob created, Zoe deleted, company-2 Bob out of
scope). -/
theorem C1_witness :
    ((dbScenario.filter filtCompany1).map (get_key EmployeeM ["name"] false)).Nodup ∧
    ({ created := 2, updated := 2, deleted := 1 } : SyncStats).created +
      ({ created := 2, updated := 2, deleted := 1 } : SyncStats).updated =
      newScenario.length :=
  ⟨by decide,
    (C1_partition_count_conservation EmployeeM newScenario ["name"] filtCompany1
      none none none dbScenario { created := 2, updated := 2, deleted := 1 }
      [ mkEmp (.vint 1) "Scott" (.vint 41) 1, mkEmp (.vint 2) "Isaac" (.vint 9) 1,
        mkEmp (.vint 4) "Bob" (.vint 25) 2, mkEmp .vnone "Newguy" (.vint 10) 1,
        mkEmp .vnone "Bob" (.vint 50) 1 ]
      (by decide) (by decide)).1⟩

/-- Witness for C3: the company-2 Bob is outside the company-1 scope and
survives the sync unchanged. -/
theorem C3_witness :
    (dbScenario.map Obj.pk).Nodup ∧
    (mkEmp (.vint 4) "Bob" (.vint 25) 2) ∈
      [ mkEmp (.vint 1) "Scott" (.vint 41) 1, mkEmp (.vint 2) "Isaac" (.vint 9) 1,
        mkEmp (.vint 4) "Bob" (.vint 25) 2, mkEmp .vnone "Newguy" (.vint 10) 1,
        mkEmp .vnone "Bob" (.vint 50) 1 ] :=
  ⟨by decide,
    (C3_scope_isolation EmployeeM newScenario ["name"] filtCompany1 none none
      false false false none dbScenario { created := 2, updated := 2, deleted := 1 }
      [ mkEmp (.vint 1) "Scott" (.vint 41) 1, mkEmp (.vint 2) "Isaac" (.vint 9) 1,
        mkEmp (.vint 4) "Bob" (.vint 25) 2, mkEmp .vnone "Newguy" (.vint 10) 1,
        mkEmp .vnone "Bob" (.vint 50) 1 ]
      (mkEmp (.vint 4) "Bob" (.vint 25) 2)
      (by decide) (by decide) (by decide) (by decide)).1⟩

/-- Witness for C2's amended agreement on the canonical scenario. -/
theorem C2_witness :
    (∀ n ∈ newScenario, get_key EmployeeM ["name"] true n = get_key EmployeeM ["name"] false n) ∧
    (bulk_compare EmployeeM (dbScenario.filter filtCompany1) newScenario ["name"] []).added =
      (classify EmployeeM newScenario ["name"] (fun _ => true)
        (dbScenario.filter filtCompany1)).new_objs :=
  ⟨by decide,
    (C2_sync_compare_agreement EmployeeM (dbScenario.filter filtCompany1) newScenario
      ["name"] [] (by decide) (by decide)).1⟩

/-- Witness for C4: the raw string "40" and the integer 40 agree as `age`
key values after canonicalization, and the concrete call classifies the
pair as one update. -/
theorem C4_witness :
    (∀ k ∈ ["name", "age"], prepFun EmployeeM k
      ((mkEmp (.vint 1) "Scott" (.vint 40) 1).getattr k) =
      (mkEmp (.vint 1) "Scott" (.vint 40) 1).getattr k) ∧
    (get_key EmployeeM ["name", "age"] false (mkEmp (.vint 1) "Scott" (.vint 40) 1) =
        get_key EmployeeM ["name", "age"] true (mkEmp .vnone "Scott" (.vstr "40") 1) ↔
      get_key EmployeeM ["name", "age"] true (mkEmp (.vint 1) "Scott" (.vint 40) 1) =
        get_key EmployeeM ["name", "age"] true (mkEmp .vnone "Scott" (.vstr "40") 1)) :=
  ⟨by decide,
    C4_canonicalization_matching.1 EmployeeM ["name", "age"]
      (mkEmp (.vint 1) "Scott" (.vint 40) 1) (mkEmp .vnone "Scott" (.vstr "40") 1)
      (by decide)⟩

/-- Witness for C6 on the repository's own validation scenario
(`exclude_fields=["missing_field"]`). -/
theorem C6_witness :
    "missing_field" ∈ ["missing_field"] ∧
    bulk_sync newScenario ["name"] filtCompany1 none (some ["missing_field"])
        false false false (some EmployeeM) none dbScenario =
      Except.error (SyncError.fieldDoesNotExist
        (["missing_field"].filter (fun e =>
          ¬(EmployeeM.fields.map (fun f => f.name)).contains e))) :=
  ⟨by decide,
    (C6_exclude_fields_validation EmployeeM newScenario ["name"] filtCompany1 none
      ["missing_field"] false false false none dbScenario "missing_field"
      (by decide) (by decide)).2⟩

/-- Witness for C8 on the canonical comparison scenario. -/
theorem C8_witness :
    ((dbScenario.filter filtCompany1).map (get_key EmployeeM ["name"] false)).Nodup ∧
    ((bulk_compare EmployeeM (dbScenario.filter filtCompany1) newScenario
      ["name"] []).added).Sublist newScenario :=
  ⟨by decide,
    (C8_compare_partition EmployeeM (dbScenario.filter filtCompany1) newScenario
      ["name"] [] (by decide)).1⟩

/-- Witness for C9 on the repository's retained-identifier scenario: a
desired record with a caller-provided identifier and an unmatched key is
create-classified with that identifier intact. -/
theorem C9_witness :
    ((classify EmployeeM [mkEmp (.vint 5) "Notscott" (.vint 41) 1] ["name"]
      (fun _ => true) [mkEmp (.vint 1) "Scott" (.vint 40) 1]).new_objs).Sublist
      [mkEmp (.vint 5) "Notscott" (.vint 41) 1] :=
  (C9_create_pk_passthrough EmployeeM [mkEmp (.vint 5) "Notscott" (.vint 41) 1] ["name"]
    (fun _ => true) [mkEmp (.vint 1) "Scott" (.vint 40) 1]).1



/-!
Helper lemmas for the idempotence analysis (C5).
-/

theorem get_key_false_eq (m : Model) (kf : List String) (o : Obj) :
    get_key m kf false o = kf.map (fun k => o.getattr k) := by
  unfold get_key
  apply List.map_congr_left
  intro k _
  simp

theorem get_key_true_eq (m : Model) (kf : List String) (o : Obj) :
    get_key m kf true o = kf.map (fun k => prepFun m k (o.getattr k)) := by
  unfold get_key
  apply List.map_congr_left
  intro k _
  simp

theorem dictKeys_map_pair (key : Obj → Key) (l : List Obj) :
    dictKeys (l.map (fun o => (key o, o))) = l.map key := by
  unfold dictKeys
  rw [List.map_map]
  rfl

theorem bulk_update_row_pk (es : List Obj) (cols : List String) (row : Obj) :
    Obj.pk (match es.find? (fun e => e.pk = row.pk) with
      | some e => set_fields row cols e
      | none => row) = row.pk := by
  cases es.find? (fun e => e.pk = row.pk) with
  | none => rfl
  | some e => exact set_fields_pk row cols e

theorem filter_all_true (db : List Obj) : db.filter (fun _ => true) = db :=
  List.filter_eq_self.mpr (fun _ _ => rfl)

theorem scoped_objs_perm_true (db : List Obj) :
    List.Perm (scoped_objs (fun _ => true) db) db := by
  have := scoped_objs_perm (fun _ => true) db
  rwa [filter_all_true] at this

theorem found_char (m : Model) (kf : List String) (db : List Obj)
    (hdbkeys : ((scoped_objs (fun _ => true) db).map (get_key m kf false)).Nodup)
    {k : Key} {o : Obj}
    (h : dictFind (dictOfList (get_key m kf false) (scoped_objs (fun _ => true) db)) k =
      some o) :
    o ∈ scoped_objs (fun _ => true) db ∧ get_key m kf false o = k := by
  have hmem := dictFind_mem h
  rw [dictOfList_eq_map hdbkeys] at hmem
  obtain ⟨o', ho', heq⟩ := List.mem_map.mp hmem
  have h1 : get_key m kf false o' = k := congrArg Prod.fst heq
  have h2 : o' = o := congrArg Prod.snd heq
  rw [← h2]
  exact ⟨ho', h1⟩



theorem txn_stats_all_matched (m : Model) (nm : List Obj) (kf : List String)
    (flds : List String) (db : List Obj)
    (hnmkeys : (nm.map (get_key m kf true)).Nodup)
    (hpresent : List.Perm (db.map (get_key m kf false)) (nm.map (get_key m kf true))) :
    (bulk_sync_txn m nm kf (fun _ => true) flds false false false db).1 =
      { created := 0, updated := nm.length, deleted := 0 } := by
  have hdbkeys : (db.map (get_key m kf false)).Nodup := hpresent.nodup_iff.mpr hnmkeys
  have hsp := scoped_objs_perm_true db
  have hkeys_sorted : ((scoped_objs (fun _ => true) db).map (get_key m kf false)).Nodup :=
    ((hsp.map (get_key m kf false)).nodup_iff).mpr hdbkeys
  have hdict0 := dictOfList_eq_map hkeys_sorted
  have hkeys_dict0 : dictKeys (dictOfList (get_key m kf false)
      (scoped_objs (fun _ => true) db)) =
      (scoped_objs (fun _ => true) db).map (get_key m kf false) := by
    rw [hdict0]
    exact dictKeys_map_pair _ _
  have hkeys_perm : List.Perm
      ((scoped_objs (fun _ => true) db).map (get_key m kf false))
      (nm.map (get_key m kf true)) :=
    (hsp.map (get_key m kf false)).trans hpresent
  obtain ⟨k1, k2, k3, k4⟩ :=
    classify_go_exact m kf nm
      { new_objs := [], existing_objs := [], matched_objs := [],
        obj_dict := dictOfList (get_key m kf false) (scoped_objs (fun _ => true) db) }
      hnmkeys
  dsimp only at k1 k2 k3 k4
  rw [List.nil_append] at k1 k2 k3
  rw [← classify_eq_foldl m nm kf (fun _ => true) db] at k1 k2 k3 k4
  have hnews : (classify m nm kf (fun _ => true) db).new_objs = [] := by
    rw [k1]
    apply List.filter_eq_nil_iff.mpr
    intro n hn hpred
    have hkmem : get_key m kf true n ∈ dictKeys (dictOfList (get_key m kf false)
        (scoped_objs (fun _ => true) db)) := by
      rw [hkeys_dict0]
      exact hkeys_perm.mem_iff.mpr (List.mem_map_of_mem _ hn)
    have hsome := dictFind_isSome.mpr hkmem
    simp [hsome] at hpred
  have hdictF : (classify m nm kf (fun _ => true) db).obj_dict = [] := by
    rw [k4]
    apply List.filter_eq_nil_iff.mpr
    intro p hp hpred
    have hkp : p.1 ∈ dictKeys (dictOfList (get_key m kf false)
        (scoped_objs (fun _ => true) db)) := mem_dictKeys.mpr ⟨p, hp, rfl⟩
    rw [hkeys_dict0] at hkp
    obtain ⟨n, hn, hkn⟩ := List.mem_map.mp (hkeys_perm.mem_iff.mp hkp)
    have : nm.any (fun n => get_key m kf true n = p.1) = true :=
      List.any_eq_true.mpr ⟨n, hn, by simpa using hkn⟩
    simp [this] at hpred
  rw [bulk_sync_txn_stats, hnews, hdictF]
  simp [dictValues]



theorem bool_not_coe (b : Bool) : (decide ¬(b = true)) = (!b : Bool) := by
  cases b <;> simp

theorem db_settle_go_map_key (m : Model) (kf : List String) (rows : List Obj) :
    ∀ next, (db_settle_go m next rows).map (get_key m kf false) =
      rows.map (fun o => get_key m kf false (settle_values m o)) := by
  induction rows with
  | nil => intro next; rfl
  | cons o rest ih =>
    intro next
    simp only [db_settle_go]
    by_cases h : o.pk = Value.vnone
    · rw [if_pos h, List.map_cons, ih, List.map_cons]
      have hhead : get_key m kf false { settle_values m o with pk := Value.vint next } =
          get_key m kf false (settle_values m o) := by
        rw [get_key_false_eq, get_key_false_eq]
        apply List.map_congr_left
        intro k _
        exact getattr_with_pk (settle_values m o) (Value.vint next) k
      rw [hhead]
    · rw [if_neg h, List.map_cons, ih, List.map_cons]

theorem db_settle_map_key (m : Model) (kf : List String) (rows : List Obj) :
    (db_settle m rows).map (get_key m kf false) =
      rows.map (fun o => get_key m kf false (settle_values m o)) :=
  db_settle_go_map_key m kf rows _

theorem find?_settle_attrs (m : Model) (attrs : List (String × Value)) (k : String) :
    (attrs.map (fun p => (p.1, settle_column m p.1 p.2))).find? (fun p => p.1 = k) =
      (attrs.find? (fun p => p.1 = k)).map (fun p => (p.1, settle_column m p.1 p.2)) := by
  have hpred : ((fun p : String × Value => decide (p.1 = k)) ∘
      (fun p : String × Value => (p.1, settle_column m p.1 p.2))) =
      (fun p : String × Value => decide (p.1 = k)) := rfl
  rw [List.find?_map, hpred]

theorem getattr_settle_values (m : Model) (o : Obj) (k : String)
    (hk : settle_column m k Value.vnone = Value.vnone) :
    (settle_values m o).getattr k = settle_column m k (o.getattr k) := by
  rcases o with ⟨pkv, attrs⟩
  show (match (attrs.map (fun p => (p.1, settle_column m p.1 p.2))).find?
      (fun p => p.1 = k) with
    | some p => p.2
    | none => Value.vnone) = _
  rw [find?_settle_attrs]
  cases hfq : attrs.find? (fun p => p.1 = k) with
  | none =>
    show Value.vnone = settle_column m k (Obj.getattr ⟨pkv, attrs⟩ k)
    have hv : Obj.getattr ⟨pkv, attrs⟩ k = Value.vnone := by
      unfold Obj.getattr
      rw [hfq]
    rw [hv, hk]
  | some q =>
    have hqk : q.1 = k := by simpa using List.find?_some hfq
    show settle_column m q.1 q.2 = settle_column m k (Obj.getattr ⟨pkv, attrs⟩ k)
    have hv : Obj.getattr ⟨pkv, attrs⟩ k = q.2 := by
      unfold Obj.getattr
      rw [hfq]
    rw [hv, hqk]

theorem settle_column_eq_prepFun (m : Model) (k : String)
    (hk : m.fields.find? (fun f => f.attname = k) = m.fields.find? (fun f => f.name = k))
    (v : Value) : settle_column m k v = prepFun m k v := by
  unfold settle_column prepFun
  rw [hk]
  cases m.fields.find? (fun f => f.name = k) with
  | none => rfl
  | some f => rfl

theorem settle_key (m : Model) (kf : List String)
    (hkf : ∀ k ∈ kf, m.fields.find? (fun f => f.attname = k) =
      m.fields.find? (fun f => f.name = k))
    (hnone : ∀ k ∈ kf, prepFun m k Value.vnone = Value.vnone)
    (o : Obj) :
    get_key m kf false (settle_values m o) = get_key m kf true o := by
  rw [get_key_false_eq, get_key_true_eq]
  apply List.map_congr_left
  intro k hk
  have hc : ∀ v, settle_column m k v = prepFun m k v :=
    settle_column_eq_prepFun m k (hkf k hk)
  have hn : settle_column m k Value.vnone = Value.vnone := by
    rw [hc Value.vnone]
    exact hnone k hk
  rw [getattr_settle_values m o k hn, hc]

theorem getattr_set_fields (row : Obj) (flds : List String) (src : Obj) (k : String) :
    (set_fields row flds src).getattr k =
      match row.attrs.find? (fun p => p.1 = k) with
      | some p => if flds.contains k then src.getattr k else p.2
      | none => Value.vnone := by
  rcases row with ⟨pkv, attrs⟩
  have hpred : ((fun p : String × Value => decide (p.1 = k)) ∘
      (fun q : String × Value => if flds.contains q.1 then (q.1, src.getattr q.1) else q)) =
      (fun q : String × Value => decide (q.1 = k)) := by
    funext q
    show decide ((if flds.contains q.1 then (q.1, src.getattr q.1) else q).1 = k) =
      decide (q.1 = k)
    by_cases hc : flds.contains q.1
    · rw [if_pos hc]
    · rw [if_neg hc]
  show (match (attrs.map (fun q =>
      if flds.contains q.1 then (q.1, src.getattr q.1) else q)).find?
        (fun p => p.1 = k) with
    | some p => p.2
    | none => Value.vnone) = _
  rw [List.find?_map, hpred]
  cases hfq : attrs.find? (fun p => p.1 = k) with
  | none => rfl
  | some q =>
    have hqk : q.1 = k := by simpa using List.find?_some hfq
    show (if flds.contains q.1 then (q.1, src.getattr q.1) else q).2 =
      if flds.contains k then src.getattr k else q.2
    rw [hqk]
    by_cases hc : flds.contains k
    · rw [if_pos hc, if_pos hc]
    · rw [if_neg hc, if_neg hc]

theorem get_key_true_set_fields (m : Model) (kf : List String) (cols : List String)
    (o n : Obj)
    (hnone : ∀ k ∈ kf, prepFun m k Value.vnone = Value.vnone)
    (hidem : ∀ k ∈ kf, ∀ v, prepFun m k (prepFun m k v) = prepFun m k v)
    (hmatched : ∀ k ∈ kf, o.getattr k = prepFun m k (n.getattr k)) :
    get_key m kf true (set_fields o cols { n with pk := o.pk }) = get_key m kf true n := by
  rw [get_key_true_eq, get_key_true_eq]
  apply List.map_congr_left
  intro k hk
  rw [getattr_set_fields]
  cases hf : o.attrs.find? (fun p => p.1 = k) with
  | none =>
    have ho : o.getattr k = Value.vnone := by
      unfold Obj.getattr
      rw [hf]
    show prepFun m k Value.vnone = prepFun m k (n.getattr k)
    rw [hnone k hk, ← hmatched k hk, ho]
  | some p =>
    show prepFun m k (if cols.contains k then Obj.getattr { n with pk := o.pk } k else p.2) =
      prepFun m k (n.getattr k)
    by_cases hc : cols.contains k
    · rw [if_pos hc, getattr_with_pk]
    · rw [if_neg hc]
      have hp : o.getattr k = p.2 := by
        unfold Obj.getattr
        rw [hf]
      rw [← hp, hmatched k hk, hidem k hk]

theorem run_db_keys (m : Model) (nm : List Obj) (kf : List String) (flds : List String)
    (db : List Obj)
    (hkf : ∀ k ∈ kf, m.fields.find? (fun f => f.attname = k) =
      m.fields.find? (fun f => f.name = k))
    (hnone : ∀ k ∈ kf, prepFun m k Value.vnone = Value.vnone)
    (hidem : ∀ k ∈ kf, ∀ v, prepFun m k (prepFun m k v) = prepFun m k v)
    (hnmkeys : (nm.map (get_key m kf true)).Nodup)
    (hdbkeys : (db.map (get_key m kf false)).Nodup)
    (hdbpk : (db.map Obj.pk).Nodup)
    (hdbpk0 : ∀ o ∈ db, o.pk ≠ Value.vnone)
    (hpkfresh : ∀ n ∈ nm, n.pk ≠ Value.vnone → ¬(n.pk ∈ db.map Obj.pk)) :
    List.Perm
      ((db_settle m
          ((bulk_sync_txn m nm kf (fun _ => true) flds false false false db).2)).map
        (get_key m kf false))
      (nm.map (get_key m kf true)) := by
  have hsp := scoped_objs_perm_true db
  have hkeys_sorted : ((scoped_objs (fun _ => true) db).map (get_key m kf false)).Nodup :=
    ((hsp.map (get_key m kf false)).nodup_iff).mpr hdbkeys
  obtain ⟨k1, k2, k3, k4⟩ :=
    classify_go_exact m kf nm
      { new_objs := [], existing_objs := [], matched_objs := [],
        obj_dict := dictOfList (get_key m kf false) (scoped_objs (fun _ => true) db) }
      hnmkeys
  dsimp only at k1 k2 k3 k4
  rw [List.nil_append] at k1 k2 k3
  rw [← classify_eq_foldl m nm kf (fun _ => true) db] at k1 k2 k3 k4
  obtain ⟨q1, q2, q3⟩ :=
    classify_go_nodup m kf nm
      { new_objs := [], existing_objs := [], matched_objs := [],
        obj_dict := dictOfList (get_key m kf false) (scoped_objs (fun _ => true) db) }
      (dictOfList_keys_nodup _ _)
  dsimp only at q3
  rw [← classify_eq_foldl m nm kf (fun _ => true) db] at q3
  have hvals0 : dictValues (dictOfList (get_key m kf false)
      (scoped_objs (fun _ => true) db)) = scoped_objs (fun _ => true) db := by
    rw [dictOfList_eq_map hkeys_sorted]
    exact dictValues_map_pair _ _
  -- the partition of the table into matched and stale records
  have hpart : List.Perm db
      (dictValues (classify m nm kf (fun _ => true) db).obj_dict ++
        (classify m nm kf (fun _ => true) db).matched_objs) := by
    refine hsp.symm.trans ?_
    have := q3
    rw [hvals0] at this
    simpa using this
  have hS_nodup : (scoped_objs (fun _ => true) db).Nodup :=
    List.Nodup.of_map _ hkeys_sorted
  have hdb_nodup : db.Nodup := hsp.nodup_iff.mp hS_nodup
  have hpart_nodup := hpart.nodup_iff.mp hdb_nodup
  obtain ⟨hstale_nodup, hms_nodup, hdisj⟩ := List.nodup_append.mp hpart_nodup
  -- stale records live in the table
  have hstale_sub : ∀ s ∈ dictValues (classify m nm kf (fun _ => true) db).obj_dict,
      s ∈ db := by
    intro s hs
    exact hpart.mem_iff.mpr (List.mem_append_left _ hs)
  -- basic facts about matched entries
  have hfound_mem : ∀ n ∈ nm,
      ∀ o, dictFind (dictOfList (get_key m kf false) (scoped_objs (fun _ => true) db))
        (get_key m kf true n) = some o →
      o ∈ db ∧ get_key m kf false o = get_key m kf true n ∧
        (∀ k ∈ kf, o.getattr k = prepFun m k (n.getattr k)) := by
    intro n _ o ho
    obtain ⟨hoS, hokey⟩ := found_char m kf db hkeys_sorted ho
    refine ⟨hsp.mem_iff.mp hoS, hokey, ?_⟩
    intro k hk
    have h1 := hokey
    rw [get_key_false_eq, get_key_true_eq] at h1
    exact List.map_inj_left.mp h1 k hk
  have hinj_nm := List.inj_on_of_nodup_map hnmkeys
  have hinj_pk := List.inj_on_of_nodup_map hdbpk
  -- notation-free handles on the matched side
  have hmem_filter_found : ∀ n ∈ nm.filter (fun n =>
      (dictFind (dictOfList (get_key m kf false) (scoped_objs (fun _ => true) db))
        (get_key m kf true n)).isSome),
      ∃ o, dictFind (dictOfList (get_key m kf false) (scoped_objs (fun _ => true) db))
        (get_key m kf true n) = some o := by
    intro n hn
    have := (List.mem_filter.mp hn).2
    simp only [decide_eq_true_eq] at this
    exact Option.isSome_iff_exists.mp (by simpa using this)
  -- pk of each update-classified record is a table pk, never vnone
  have hes_shape : ∀ e ∈ (classify m nm kf (fun _ => true) db).existing_objs,
      ∃ n ∈ nm, ∃ o ∈ db, e = { n with pk := o.pk } := by
    intro e he
    rw [k2] at he
    obtain ⟨n, hn, hne⟩ := List.mem_map.mp he
    have hn' := List.mem_of_mem_filter hn
    obtain ⟨o, ho⟩ := hmem_filter_found n hn
    rw [ho] at hne
    exact ⟨n, hn', o, (hfound_mem n hn' o ho).1, hne.symm⟩
  have hes_pkdb : ∀ e ∈ (classify m nm kf (fun _ => true) db).existing_objs,
      e.pk ≠ Value.vnone ∧ e.pk ∈ db.map Obj.pk := by
    intro e he
    obtain ⟨n, hn, o, ho, hne⟩ := hes_shape e he
    rw [hne]
    dsimp only
    exact ⟨hdbpk0 o ho, List.mem_map_of_mem Obj.pk ho⟩
  -- creates keep their caller pk: absent, or fresh w.r.t. the table
  have hnews_pk : ∀ nn ∈ (classify m nm kf (fun _ => true) db).new_objs,
      nn.pk = Value.vnone ∨ ¬(nn.pk ∈ db.map Obj.pk) := by
    intro nn hnn
    rw [k1] at hnn
    by_cases h0 : nn.pk = Value.vnone
    · exact Or.inl h0
    · exact Or.inr (hpkfresh nn (List.mem_of_mem_filter hnn) h0)
  -- stale pks are table pks, never vnone
  have hstale_pk : ∀ v ∈ (dictValues (classify m nm kf (fun _ => true) db).obj_dict).map
      (fun o => o.pk), v ≠ Value.vnone ∧ v ∈ db.map Obj.pk := by
    intro v hv
    obtain ⟨s, hs, hsv⟩ := List.mem_map.mp hv
    constructor
    · rw [← hsv]
      exact hdbpk0 s (hstale_sub s hs)
    · rw [← hsv]
      exact List.mem_map_of_mem Obj.pk (hstale_sub s hs)
  -- the updates hit no create-classified record
  have hupd_news : bulk_update m (classify m nm kf (fun _ => true) db).new_objs
      (classify m nm kf (fun _ => true) db).existing_objs flds =
      (classify m nm kf (fun _ => true) db).new_objs := by
    apply bulk_update_eq_self
    intro row hrow
    apply List.find?_eq_none.mpr
    intro e he
    simp only [decide_eq_true_eq]
    intro hc
    rcases hnews_pk row hrow with h0 | h0
    · exact (hes_pkdb e he).1 (by rw [hc, h0])
    · exact h0 (hc ▸ (hes_pkdb e he).2)
  -- the deletes hit no create-classified record
  have hdel_news : ((classify m nm kf (fun _ => true) db).new_objs).filter
      (fun row => ¬((dictValues (classify m nm kf (fun _ => true) db).obj_dict).map
        (fun o => o.pk)).contains row.pk) =
      (classify m nm kf (fun _ => true) db).new_objs := by
    apply List.filter_eq_self.mpr
    intro row hrow
    simp only [decide_eq_true_eq]
    intro hc
    have hpair := hstale_pk row.pk (List.elem_iff.mp hc)
    rcases hnews_pk row hrow with h0 | h0
    · exact hpair.1 h0
    · exact h0 hpair.2
  -- shape of the post-run table
  have hdbA : (bulk_sync_txn m nm kf (fun _ => true) flds false false false db).2 =
      (db.filter (fun row =>
          ¬((dictValues (classify m nm kf (fun _ => true) db).obj_dict).map
            (fun o => o.pk)).contains row.pk)).map
        (fun row =>
          match (classify m nm kf (fun _ => true) db).existing_objs.find?
              (fun e => e.pk = row.pk) with
          | some e => set_fields row (flds.map (field_column m)) e
          | none => row) ++
      (classify m nm kf (fun _ => true) db).new_objs := by
    rw [bulk_sync_txn_db]
    unfold bulk_create
    rw [bulk_update_append, hupd_news, delete_stale_const_true, List.filter_append, hdel_news]
    congr 1
    unfold bulk_update
    rw [List.filter_map]
    congr 1
    apply List.filter_congr
    intro row _
    have := bulk_update_row_pk (classify m nm kf (fun _ => true) db).existing_objs
      (flds.map (field_column m)) row
    simp only [Function.comp]
    rw [this]
  -- uniqueness of update-record pks
  have hnm_nodup : nm.Nodup := List.Nodup.of_map _ hnmkeys
  have hnmM_nodup : (nm.filter (fun n =>
      (dictFind (dictOfList (get_key m kf false) (scoped_objs (fun _ => true) db))
        (get_key m kf true n)).isSome)).Nodup := hnm_nodup.filter _
  have hes_pks_nodup : (((classify m nm kf (fun _ => true) db).existing_objs).map Obj.pk).Nodup := by
    rw [k2, List.map_map]
    refine (List.nodup_map_iff_inj_on hnmM_nodup).mpr ?_
    intro n₁ h₁ n₂ h₂ heq
    obtain ⟨o₁, ho₁⟩ := hmem_filter_found n₁ h₁
    obtain ⟨o₂, ho₂⟩ := hmem_filter_found n₂ h₂
    simp only [Function.comp, ho₁, ho₂] at heq
    have hpkeq : o₁.pk = o₂.pk := heq
    have hmem₁ := hfound_mem n₁ (List.mem_of_mem_filter h₁) o₁ ho₁
    have hmem₂ := hfound_mem n₂ (List.mem_of_mem_filter h₂) o₂ ho₂
    have ho12 : o₁ = o₂ := hinj_pk hmem₁.1 hmem₂.1 hpkeq
    refine hinj_nm (List.mem_of_mem_filter h₁) (List.mem_of_mem_filter h₂) ?_
    rw [← hmem₁.2.1, ← hmem₂.2.1, ho12]
  -- find the paired update record of a matched table row
  have hfind_es : ∀ n ∈ nm.filter (fun n =>
      (dictFind (dictOfList (get_key m kf false) (scoped_objs (fun _ => true) db))
        (get_key m kf true n)).isSome),
      ∀ o, dictFind (dictOfList (get_key m kf false) (scoped_objs (fun _ => true) db))
        (get_key m kf true n) = some o →
      ((classify m nm kf (fun _ => true) db).existing_objs).find?
        (fun e => e.pk = o.pk) = some { n with pk := o.pk } := by
    intro n hn o ho
    have hmem : ({ n with pk := o.pk } : Obj) ∈
        (classify m nm kf (fun _ => true) db).existing_objs := by
      rw [k2]
      refine List.mem_map.mpr ⟨n, hn, ?_⟩
      rw [ho]
    have hfind := find?_eq_of_mem_of_nodup_map hes_pks_nodup hmem
    have hpred : (fun x : Obj => decide (Obj.pk x = Obj.pk { n with pk := o.pk })) =
        (fun x : Obj => decide (x.pk = o.pk)) := rfl
    rwa [hpred] at hfind
  -- each matched table row, after its update, settles to its new record's key
  have hupd_key : ∀ n ∈ nm.filter (fun n =>
      (dictFind (dictOfList (get_key m kf false) (scoped_objs (fun _ => true) db))
        (get_key m kf true n)).isSome),
      ∀ o, dictFind (dictOfList (get_key m kf false) (scoped_objs (fun _ => true) db))
        (get_key m kf true n) = some o →
      get_key m kf true
        (match ((classify m nm kf (fun _ => true) db).existing_objs).find?
            (fun e => e.pk = o.pk) with
          | some e => set_fields o (flds.map (field_column m)) e
          | none => o) = get_key m kf true n := by
    intro n hn o ho
    rw [hfind_es n hn o ho]
    exact get_key_true_set_fields m kf (flds.map (field_column m)) o n hnone hidem
      ((hfound_mem n (List.mem_of_mem_filter hn) o ho).2.2)
  -- the deletion filter keeps exactly the matched table rows
  have hfilter_perm : List.Perm
      (db.filter (fun row =>
        ¬((dictValues (classify m nm kf (fun _ => true) db).obj_dict).map
          (fun o => o.pk)).contains row.pk))
      ((classify m nm kf (fun _ => true) db).matched_objs) := by
    refine (hpart.filter _).trans ?_
    rw [List.filter_append]
    have hstale_nil : ((dictValues (classify m nm kf (fun _ => true) db).obj_dict).filter
        (fun row =>
          ¬((dictValues (classify m nm kf (fun _ => true) db).obj_dict).map
            (fun o => o.pk)).contains row.pk)) = [] := by
      apply List.filter_eq_nil_iff.mpr
      intro s hs
      simp only [decide_eq_true_eq, Decidable.not_not]
      exact List.elem_iff.mpr (List.mem_map_of_mem (fun o => o.pk) hs)
    have hms_keep : (((classify m nm kf (fun _ => true) db).matched_objs).filter
        (fun row =>
          ¬((dictValues (classify m nm kf (fun _ => true) db).obj_dict).map
            (fun o => o.pk)).contains row.pk)) =
        (classify m nm kf (fun _ => true) db).matched_objs := by
      apply List.filter_eq_self.mpr
      intro o ho
      simp only [decide_eq_true_eq]
      intro hc
      obtain ⟨s, hs, hspk⟩ := List.mem_map.mp (List.elem_iff.mp hc)
      have ho_db : o ∈ db := hpart.mem_iff.mpr (List.mem_append_right _ ho)
      have hs_db : s ∈ db := hstale_sub s hs
      have hso : s = o := hinj_pk hs_db ho_db hspk
      exact hdisj (hso ▸ hs) ho
    rw [hstale_nil, hms_keep, List.nil_append]
  -- settling the post-run table reads every row back at its prepped key
  have hred : (db_settle m
      ((bulk_sync_txn m nm kf (fun _ => true) flds false false false db).2)).map
        (get_key m kf false) =
      ((bulk_sync_txn m nm kf (fun _ => true) flds false false false db).2).map
        (get_key m kf true) := by
    rw [db_settle_map_key]
    apply List.map_congr_left
    intro o _
    exact settle_key m kf hkf hnone o
  -- assemble the key multiset of the settled post-run table
  rw [hred, hdbA, List.map_append, List.map_map]
  have hA : List.Perm
      ((db.filter (fun row =>
        ¬((dictValues (classify m nm kf (fun _ => true) db).obj_dict).map
          (fun o => o.pk)).contains row.pk)).map
        ((get_key m kf true) ∘ (fun row =>
          match ((classify m nm kf (fun _ => true) db).existing_objs).find?
              (fun e => e.pk = row.pk) with
            | some e => set_fields row (flds.map (field_column m)) e
            | none => row)))
      ((nm.filter (fun n =>
        (dictFind (dictOfList (get_key m kf false) (scoped_objs (fun _ => true) db))
          (get_key m kf true n)).isSome)).map (get_key m kf true)) := by
    refine (hfilter_perm.map _).trans ?_
    rw [k3, List.map_map]
    have : ∀ n ∈ nm.filter (fun n =>
        (dictFind (dictOfList (get_key m kf false) (scoped_objs (fun _ => true) db))
          (get_key m kf true n)).isSome),
        (((get_key m kf true) ∘ (fun row =>
          match ((classify m nm kf (fun _ => true) db).existing_objs).find?
              (fun e => e.pk = row.pk) with
            | some e => set_fields row (flds.map (field_column m)) e
            | none => row)) ∘ (fun n =>
          match dictFind (dictOfList (get_key m kf false) (scoped_objs (fun _ => true) db))
              (get_key m kf true n) with
            | some o => o
            | none => n)) n = get_key m kf true n := by
      intro n hn
      obtain ⟨o, ho⟩ := hmem_filter_found n hn
      simp only [Function.comp, ho]
      exact hupd_key n hn o ho
    rw [List.map_congr_left this]
  have hB : ((classify m nm kf (fun _ => true) db).new_objs).map (get_key m kf true) =
      ((nm.filter (fun n =>
        ¬(dictFind (dictOfList (get_key m kf false) (scoped_objs (fun _ => true) db))
          (get_key m kf true n)).isSome)).map (get_key m kf true)) := by
    rw [k1]
  rw [hB]
  refine (hA.append (List.Perm.refl _)).trans ?_
  rw [← List.map_append]
  refine List.Perm.map _ ?_
  have hsplit := List.filter_append_perm (fun n =>
    (dictFind (dictOfList (get_key m kf false) (scoped_objs (fun _ => true) db))
      (get_key m kf true n)).isSome) nm
  refine List.Perm.trans ?_ hsplit
  refine List.Perm.append (List.Perm.refl _) ?_
  have hnotform : (nm.filter (fun n =>
      ¬(dictFind (dictOfList (get_key m kf false) (scoped_objs (fun _ => true) db))
        (get_key m kf true n)).isSome)) =
      (nm.filter (fun n =>
        !(dictFind (dictOfList (get_key m kf false) (scoped_objs (fun _ => true) db))
          (get_key m kf true n)).isSome)) := by
    apply List.filter_congr
    intro n _
    exact bool_not_coe _
  rw [hnotform]



/-- C5 (amended): running `bulk_sync` twice in succession with the same
desired records, key fields and entire-table scope (no skip flags, no
interleaved writers), the second run reading the first run's table as the
storage engine committed it (`db_settle`: canonical stored column values,
fresh identifiers for identifier-less inserts), yields `created = 0` and
`deleted = 0` on the second run, and the second run's `updated` count
equals the **total** number of desired records — every desired record
matches and is re-counted as an update, whether or not its field values
differ from storage (the stat counts matched records, not
actually-changed ones).  Hypotheses are the library's documented usage
and the storage data model: each key field is a schema field stored under
its own column name, per-field canonicalization maps absence to absence
and is idempotent (it is a normalization), desired keys are pairwise
distinct, persisted keys are pairwise distinct, persisted rows carry
unique non-null identifiers, and a caller-supplied identifier on a
desired record never collides with a persisted one (such a collision is a
storage uniqueness violation that aborts the run).  Under a narrower
scope filter the property fails — see the counterexample. -/
theorem C5_second_run_stats
    (m : Model) (nm : List Obj) (kf : List String) (fields : Option (List String))
    (nmc₁ nmc₂ : Option Model) (db : List Obj) (r1 r2 : SyncStats × List Obj)
    (hkf : ∀ k ∈ kf, m.fields.find? (fun f => f.attname = k) =
      m.fields.find? (fun f => f.name = k))
    (hnone : ∀ k ∈ kf, prepFun m k Value.vnone = Value.vnone)
    (hidem : ∀ k ∈ kf, ∀ v, prepFun m k (prepFun m k v) = prepFun m k v)
    (hnmkeys : (nm.map (get_key m kf true)).Nodup)
    (hdbkeys : (db.map (get_key m kf false)).Nodup)
    (hdbpk : (db.map Obj.pk).Nodup)
    (hdbpk0 : ∀ o ∈ db, o.pk ≠ Value.vnone)
    (hpkfresh : ∀ n ∈ nm, n.pk ≠ Value.vnone → ¬(n.pk ∈ db.map Obj.pk))
    (hrun1 : bulk_sync nm kf (fun _ => true) fields none false false false (some m) nmc₁ db =
      Except.ok r1)
    (hrun2 : bulk_sync nm kf (fun _ => true) fields none false false false (some m) nmc₂
      (db_settle m r1.2) = Except.ok r2) :
    r2.1.created = 0 ∧ r2.1.deleted = 0 ∧ r2.1.updated = nm.length := by
  obtain ⟨flds1, hrf1, hr1⟩ :=
    bulk_sync_ok m nm kf (fun _ => true) fields none false false false nmc₁ db r1 hrun1
  obtain ⟨flds2, hrf2, hr2⟩ :=
    bulk_sync_ok m nm kf (fun _ => true) fields none false false false nmc₂
      (db_settle m r1.2) r2 hrun2
  have hK := run_db_keys m nm kf flds1 db hkf hnone hidem hnmkeys hdbkeys hdbpk hdbpk0 hpkfresh
  have hdbA : r1.2 = (bulk_sync_txn m nm kf (fun _ => true) flds1 false false false db).2 :=
    congrArg Prod.snd hr1
  have hpresent : List.Perm ((db_settle m r1.2).map (get_key m kf false))
      (nm.map (get_key m kf true)) := by
    rw [hdbA]
    exact hK
  have hstats := txn_stats_all_matched m nm kf flds2 (db_settle m r1.2) hnmkeys hpresent
  have hfinal : r2.1 = { created := 0, updated := nm.length, deleted := 0 } := by
    rw [congrArg Prod.fst hr2, hstats]
  rw [hfinal]
  exact ⟨rfl, rfl, rfl⟩

/-- C5 counterexample, two independent divergences from the claimed
idempotence property, each a concrete chained run pair.

First conjunct group (entire-table scope): with the table already equal
to the desired state (Scott, age 40) — a fixed point of the engine's
write semantics, so this is exactly the state a second run reads — a
`bulk_sync` run reports `updated = 1` even though zero records have
actually-differing field values (`compare_objs` on the stored and desired
record is empty).  The claim's "updated equals the number of desired
records whose effective field values actually differ from storage (0 when
the first run fully applied)" is false: the code counts every matched
record as updated.

Second conjunct group (narrower scope): under the company-1 scope filter,
a desired record whose fields place it outside the scope (Bob, company 2)
is created by the first run, lands outside the scope, and is therefore
created again by the second run — `created = 1` on both runs, refuting
`created = 0` on the second run for scoped syncs with identical desired
records, key fields and filter.  The surviving claim is therefore
restricted to entire-table scope. -/
theorem C5_counterexample :
    (bulk_sync [mkEmp .vnone "Scott" (.vint 40) 1] ["name"] (fun _ => true) none none
        false false false (some EmployeeM) none [mkEmp (.vint 1) "Scott" (.vint 40) 1] =
      Except.ok ({ created := 0, updated := 1, deleted := 0 },
        [mkEmp (.vint 1) "Scott" (.vint 40) 1]) ∧
      db_settle EmployeeM [mkEmp (.vint 1) "Scott" (.vint 40) 1] =
        [mkEmp (.vint 1) "Scott" (.vint 40) 1] ∧
      compare_objs EmployeeM (mkEmp (.vint 1) "Scott" (.vint 40) 1)
        (mkEmp (.vint 1) "Scott" (.vint 40) 1) [] = []) ∧
    (bulk_sync [mkEmp .vnone "Bob" (.vint 25) 2] ["name"] filtCompany1 none none
        false false false (some EmployeeM) none [] =
      Except.ok ({ created := 1, updated := 0, deleted := 0 },
        [mkEmp .vnone "Bob" (.vint 25) 2]) ∧
      db_settle EmployeeM [mkEmp .vnone "Bob" (.vint 25) 2] =
        [mkEmp (.vint 1) "Bob" (.vint 25) 2] ∧
      bulk_sync [mkEmp .vnone "Bob" (.vint 25) 2] ["name"] filtCompany1 none none
        false false false (some EmployeeM) none [mkEmp (.vint 1) "Bob" (.vint 25) 2] =
      Except.ok ({ created := 1, updated := 0, deleted := 0 },
        [mkEmp (.vint 1) "Bob" (.vint 25) 2, mkEmp .vnone "Bob" (.vint 25) 2])) := by
  decide

/-- Witness for C5's amended statement on a run pair exercising a raw
(uncanonicalized) desired key value (Scott keyed by age `"40"` as a
string against the stored integer 40) and a caller-supplied fresh
identifier (Newguy, pk 7): the first run updates Scott and creates
Newguy; the engine settles the written table; the second run reports
`created = 0`, `deleted = 0`, `updated = 2`. -/
theorem C5_witness :
    ((([ mkEmp .vnone "Scott" (.vstr "40") 1,
         mkEmp (.vint 7) "Newguy" (.vint 10) 1 ] : List Obj).map
        (get_key EmployeeM ["age"] true)).Nodup) ∧
    ({ created := 0, updated := 2, deleted := 0 } : SyncStats).created = 0 ∧
    ({ created := 0, updated := 2, deleted := 0 } : SyncStats).deleted = 0 ∧
    ({ created := 0, updated := 2, deleted := 0 } : SyncStats).updated =
      ([ mkEmp .vnone "Scott" (.vstr "40") 1,
         mkEmp (.vint 7) "Newguy" (.vint 10) 1 ] : List Obj).length :=
  ⟨by decide,
    C5_second_run_stats EmployeeM
      [ mkEmp .vnone "Scott" (.vstr "40") 1, mkEmp (.vint 7) "Newguy" (.vint 10) 1 ]
      ["age"] none none none [mkEmp (.vint 1) "Scott" (.vint 40) 1]
      ({ created := 1, updated := 1, deleted := 0 },
        [ { pk := .vint 1, attrs := [("name", .vstr "Scott"), ("age", .vstr "40"),
            ("company_id", .vint 1)] },
          mkEmp (.vint 7) "Newguy" (.vint 10) 1 ])
      ({ created := 0, updated := 2, deleted := 0 },
        [ { pk := .vint 1, attrs := [("name", .vstr "Scott"), ("age", .vstr "40"),
            ("company_id", .vint 1)] },
          mkEmp (.vint 7) "Newguy" (.vint 10) 1 ])
      (by
        intro k hk
        rw [List.mem_singleton] at hk
        subst hk
        rfl)
      (by
        intro k hk
        rw [List.mem_singleton] at hk
        subst hk
        rfl)
      (by
        intro k hk v
        rw [List.mem_singleton] at hk
        subst hk
        show int_to_python (int_to_python v) = int_to_python v
        cases v with
        | vnone => rfl
        | vint n => rfl
        | vstr s =>
          unfold int_to_python
          cases h : digits_to_nat s.data none with
          | none => simp [h]
          | some n => simp [h])
      (by decide) (by decide) (by decide) (by decide) (by decide)
      (by decide) (by decide)⟩


end BulkSync
